import Mathlib

/-!
Shallow embedding of the eligibility-materialization pipeline of the
`fusion_resolver` repository.

Sources embedded here:
- `src/services/EligibilityService.ts` (diff-based version, `src/unnamed/part_002`):
  `computeEligibility`, `getOfferDetails`, `batchCreateMany`.
- the earlier delete-and-recreate `EligibilityService` (`src/unnamed/part_003`, first
  section): `oldComputeEligibility` below.
- `CacheService` (`src/unnamed/part_003`, second section): `cacheGet`, `cacheSet`,
  `cacheInvalidate`, with a model of Redis glob `KEYS` matching.
- `src/resolvers/OptimizedOffersResolver.ts`: `getOffers`, `enrichOffers`,
  the inline cache-key construction.
- `src/workers/EligibilityWorker.ts`: `processJob` (compute + merchant-scoped
  cache invalidation).

Dates/timestamps are modelled as `Nat` milliseconds (JS `Date.getTime()`);
`new Date()` becomes an explicit `now : Nat` parameter.  Database row ids
(TEXT cuids) are modelled as `Nat` with fresh ids drawn above the current
maximum.  Effects against Postgres become explicit state passing on a
`List EligRecord` table; `$transaction` becomes an `Except`-valued statement
interpreter whose failure leaves the table unchanged (rollback).
-/

namespace FusionResolver

/-- A `CustomerType` row: (user id, merchant id, type label). -/
structure CustomerType where
  userId : String
  merchantId : String
  type : String
deriving DecidableEq, Repr

/-- An `Outlet` row (fields used by the pipeline). -/
structure Outlet where
  id : String
  merchantId : String
  isActive : Bool
deriving DecidableEq, Repr

/-- Payload fields of an outlet as selected by `enrichOffers` (`Outlets` include). -/
structure OutletInfo where
  id : String
  name : String
  description : Option String
  isActive : Bool
deriving DecidableEq, Repr

/-- A `CashbackConfiguration` row (fields used by the pipeline). -/
structure CashbackConfiguration where
  id : String
  name : String
  merchantId : String
  eligibleCustomerTypes : List String
  startDate : Option Nat
  endDate : Option Nat
  isActive : Bool
  deletedAt : Option Nat
  Outlets : List OutletInfo
deriving DecidableEq, Repr

/-- An `ExclusiveOffer` row (fields used by the pipeline).  In the Prisma schema
`merchantId` is nullable and `startDate`/`endDate` are non-null. -/
structure ExclusiveOffer where
  id : String
  name : String
  description : Option String
  merchantId : Option String
  eligibleCustomerTypes : List String
  startDate : Nat
  endDate : Nat
  isActive : Bool
  deletedAt : Option Nat
  Outlets : List OutletInfo
deriving DecidableEq, Repr

/-- A `LoyaltyTier` row (fields selected by `getOfferDetails`). -/
structure LoyaltyTier where
  isActive : Bool
  deletedAt : Option Nat
  minCustomerType : String
deriving DecidableEq, Repr

/-- A `LoyaltyProgram` row with its `LoyaltyTiers` relation. -/
structure LoyaltyProgram where
  id : String
  isActive : Bool
  LoyaltyTiers : List LoyaltyTier
deriving DecidableEq, Repr

/-- A `user_offer_eligibility` row.  `id` is the primary key (TEXT cuid in the
schema, `Nat` here); `validFrom`/`validUntil` are NOT NULL per the migration. -/
structure EligRecord where
  id : Nat
  userId : String
  outletId : String
  offerType : String
  offerId : String
  merchantId : String
  isEligible : Bool
  validFrom : Nat
  validUntil : Nat
  lastUpdated : Nat
  createdAt : Nat
deriving DecidableEq, Repr

/-- The relational store visible to the eligibility service (minus the
eligibility table itself, which is threaded separately as mutable state). -/
structure Store where
  cashbacks : List CashbackConfiguration
  exclusives : List ExclusiveOffer
  loyaltyPrograms : List LoyaltyProgram
  outlets : List Outlet
  customerTypes : List CustomerType
deriving Repr

/-- The kind-polymorphic offer descriptor produced by `getOfferDetails`. -/
structure OfferDescriptor where
  eligibleCustomerTypes : List String
  startDate : Option Nat
  endDate : Option Nat
  isActive : Bool
  deletedAt : Option Nat
deriving DecidableEq, Repr

/-- `EligibilityService.getOfferDetails` (diff-based service): switch on the
offer type string; `Cashback` and `Exclusive` select the descriptor fields from
their tables, `Loyalty` synthesizes the eligible types from its active,
non-deleted tiers, and any other string falls through to `null`. -/
def getOfferDetails (s : Store) (offerId offerType : String) : Option OfferDescriptor :=
  if offerType = "Cashback" then
    (s.cashbacks.find? (fun c => c.id == offerId)).map (fun c =>
      { eligibleCustomerTypes := c.eligibleCustomerTypes
        startDate := c.startDate, endDate := c.endDate
        isActive := c.isActive, deletedAt := c.deletedAt })
  else if offerType = "Exclusive" then
    (s.exclusives.find? (fun e => e.id == offerId)).map (fun e =>
      { eligibleCustomerTypes := e.eligibleCustomerTypes
        startDate := some e.startDate, endDate := some e.endDate
        isActive := e.isActive, deletedAt := e.deletedAt })
  else if offerType = "Loyalty" then
    (s.loyaltyPrograms.find? (fun l => l.id == offerId)).map (fun l =>
      { eligibleCustomerTypes :=
          (l.LoyaltyTiers.filter (fun t => t.isActive && t.deletedAt == none)).map
            (fun t => t.minCustomerType)
        startDate := none, endDate := none
        isActive := l.isActive, deletedAt := none })
  else none

/-- `outlet.findMany({ where: { merchantId, isActive: true } })`. -/
def activeOutlets (s : Store) (merchantId : String) : List Outlet :=
  s.outlets.filter (fun o => o.merchantId == merchantId && o.isActive)

/-- Step 4 of `computeEligibility`: expand the sentinel `All` to every
customer-type row of the merchant, otherwise keep only rows whose type is in
the eligible set. -/
def matchingCustomerTypes (s : Store) (merchantId : String)
    (elig : List String) : List CustomerType :=
  if elig.contains "All" then
    s.customerTypes.filter (fun ct => ct.merchantId == merchantId)
  else
    s.customerTypes.filter (fun ct =>
      ct.merchantId == merchantId && elig.contains ct.type)

/-- One year in milliseconds (`365 * 24 * 60 * 60 * 1000`). -/
def yearMs : Nat := 365 * 24 * 60 * 60 * 1000

/-- A record to be inserted (`id`/`createdAt` are assigned by the database). -/
structure NewRecord where
  userId : String
  outletId : String
  offerType : String
  offerId : String
  merchantId : String
  isEligible : Bool
  validFrom : Nat
  validUntil : Nat
  lastUpdated : Nat
deriving DecidableEq, Repr

/-- Step 5 of `computeEligibility`: the desired records, the cross product of
matching customer types with the merchant's active outlets; `validFrom`
defaults to `now`, `validUntil` to `now + 365d` when the offer dates are
absent. -/
def desiredRecords (s : Store) (offerId offerType merchantId : String)
    (offer : OfferDescriptor) (now : Nat) : List NewRecord :=
  (matchingCustomerTypes s merchantId offer.eligibleCustomerTypes).flatMap (fun ct =>
    (activeOutlets s merchantId).map (fun outlet =>
      { userId := ct.userId
        outletId := outlet.id
        offerType := offerType
        offerId := offerId
        merchantId := merchantId
        isEligible := true
        validFrom := offer.startDate.getD now
        validUntil := offer.endDate.getD (now + yearMs)
        lastUpdated := now }))

/-- The composite diff key `` `${userId}:${outletId}` ``. -/
def recKey (userId outletId : String) : String := userId ++ ":" ++ outletId

/-- The rows already stored for this offer
(`findMany({ where: { offerId, offerType } })`). -/
def existingFor (table : List EligRecord) (offerId offerType : String) :
    List EligRecord :=
  table.filter (fun r => r.offerId == offerId && r.offerType == offerType)

/-- The data of one `update` call of step 8. -/
structure UpdateRecord where
  id : Nat
  validFrom : Nat
  validUntil : Nat
  lastUpdated : Nat
deriving DecidableEq, Repr

/-- Step 7's `toUpdate`: existing records whose key is also desired but whose
validity window differs from the desired one, mapped to update payloads.  The
source expresses this as a `filter` (with a `find` that is re-run in the
subsequent `map` under a non-null assertion); the two stages are fused into one
`filterMap` over the same `find?`. -/
def toUpdateList (existing : List EligRecord) (newRecs : List NewRecord)
    (newKeys : List String) (now : Nat) : List UpdateRecord :=
  existing.filterMap (fun e =>
    if newKeys.contains (recKey e.userId e.outletId) then
      match newRecs.find? (fun n => n.userId == e.userId && n.outletId == e.outletId) with
      | none => none
      | some n =>
        if e.validFrom != n.validFrom || e.validUntil != n.validUntil then
          some { id := e.id, validFrom := n.validFrom, validUntil := n.validUntil
                 lastUpdated := now }
        else none
    else none)

/-- The outcome of steps 1-7 of `computeEligibility`: either one of the three
early returns that erase every row of the offer (`tombstone`), or the diffed
delta executed by the transaction of step 8. -/
inductive Plan where
  | tombstone : Plan
  | delta (toCreate : List NewRecord) (toUpdate : List UpdateRecord)
      (toDelete : List EligRecord) : Plan
deriving DecidableEq, Repr

/-- Steps 1-7 of the diff-based `computeEligibility`: offer lookup, the
inactive/soft-deleted check, the active-outlet check, then the three-way diff
of desired against existing records keyed by `` `${userId}:${outletId}` ``. -/
def computePlan (s : Store) (table : List EligRecord)
    (offerId offerType merchantId : String) (now : Nat) : Plan :=
  match getOfferDetails s offerId offerType with
  | none => .tombstone
  | some offer =>
    if !offer.isActive || offer.deletedAt.isSome then .tombstone
    else if (activeOutlets s merchantId).isEmpty then .tombstone
    else
      let newRecs := desiredRecords s offerId offerType merchantId offer now
      let existing := existingFor table offerId offerType
      let existingKeys := existing.map (fun r => recKey r.userId r.outletId)
      let newKeys := newRecs.map (fun r => recKey r.userId r.outletId)
      .delta
        (newRecs.filter (fun r => !existingKeys.contains (recKey r.userId r.outletId)))
        (toUpdateList existing newRecs newKeys now)
        (existing.filter (fun r => !newKeys.contains (recKey r.userId r.outletId)))

/-- The four-column unique key of `user_offer_eligibility`
(`userId, outletId, offerType, offerId`). -/
def rowKey (r : EligRecord) : String × String × String × String :=
  (r.userId, r.outletId, r.offerType, r.offerId)

/-- The unique key of a record about to be inserted. -/
def newRowKey (n : NewRecord) : String × String × String × String :=
  (n.userId, n.outletId, n.offerType, n.offerId)

/-- A fresh primary key above every id in the table. -/
def freshIdFor (table : List EligRecord) : Nat :=
  (table.map (fun r => r.id)).foldr max 0 + 1

/-- The row created for `n` with database-assigned `id` and `createdAt`. -/
def mkRow (n : NewRecord) (id now : Nat) : EligRecord :=
  { id := id, userId := n.userId, outletId := n.outletId
    offerType := n.offerType, offerId := n.offerId, merchantId := n.merchantId
    isEligible := n.isEligible, validFrom := n.validFrom, validUntil := n.validUntil
    lastUpdated := n.lastUpdated, createdAt := now }

/-- `createMany({ data, skipDuplicates: true })`: insert each row unless a row
with the same unique key is already present (`ON CONFLICT DO NOTHING`, which
also silences duplicates within the same batch). -/
def insertSkipDup (table : List EligRecord) (rows : List NewRecord)
    (fid now : Nat) : List EligRecord :=
  match rows with
  | [] => table
  | n :: rest =>
    if table.any (fun r => rowKey r == newRowKey n) then
      insertSkipDup table rest fid now
    else
      insertSkipDup (table ++ [mkRow n fid now]) rest (fid + 1) now

/-- One statement issued inside the `$transaction` of step 8. -/
inductive Stmt where
  | deleteByIds (ids : List Nat) : Stmt
  | updateRow (id validFrom validUntil lastUpdated : Nat) : Stmt
  | insertMany (rows : List NewRecord) : Stmt
deriving DecidableEq, Repr

/-- Fuel-indexed chunking helper (structural recursion on the fuel, which is
initialized to the list length and stays sufficient because `drop` shrinks the
list). -/
def chunksOfAux (n : Nat) : Nat → List α → List (List α)
  | _, [] => []
  | 0, l => [l]
  | fuel + 1, a :: l => (a :: l.take n) :: chunksOfAux n fuel (l.drop n)

/-- Split a list into chunks of size `n + 1` (the slicing loops of step 8 and
`batchCreateMany`; sizes 500 and 1000 appear as `chunksOf 499` / `chunksOf 999`). -/
def chunksOf (n : Nat) (l : List α) : List (List α) :=
  chunksOfAux n l.length l

/-- The `update` call of one `toUpdate` record (sets the validity window and
`lastUpdated` of the row with that id). -/
def updOf (r : UpdateRecord) : Stmt :=
  .updateRow r.id r.validFrom r.validUntil r.lastUpdated

/-- The statement sequence of step 8: the `deleteMany` by id set (when
non-empty), then one `update` per record walked in batches of 500, then
`createMany(skipDuplicates)` in batches of 1000. -/
def txStatements (toCreate : List NewRecord) (toUpdate : List UpdateRecord)
    (toDelete : List EligRecord) : List Stmt :=
  (if toDelete.isEmpty then [] else [.deleteByIds (toDelete.map (fun r => r.id))]) ++
  (chunksOf 499 toUpdate).flatMap (fun batch => batch.map updOf) ++
  (if toCreate.isEmpty then [] else (chunksOf 999 toCreate).map .insertMany)

/-- Run one statement: `deleteMany` filters by id, `update` fails (Prisma
`P2025`) when the row is absent, `createMany(skipDuplicates)` inserts with
fresh ids and never fails on a duplicate key. -/
def runStmt (table : List EligRecord) (now : Nat) : Stmt → Except Unit (List EligRecord)
  | .deleteByIds ids => .ok (table.filter (fun r => !ids.contains r.id))
  | .updateRow id vf vu lu =>
    if table.any (fun r => r.id == id) then
      .ok (table.map (fun r =>
        if r.id == id then
          { r with validFrom := vf, validUntil := vu, lastUpdated := lu }
        else r))
    else .error ()
  | .insertMany rows => .ok (insertSkipDup table rows (freshIdFor table) now)

/-- Run a statement list left to right, stopping at the first failure. -/
def runTxList (now : Nat) : List Stmt → List EligRecord → Except Unit (List EligRecord)
  | [], table => .ok table
  | st :: rest, table =>
    match runStmt table now st with
    | .ok t => runTxList now rest t
    | .error e => .error e

/-- The whole diff-based `computeEligibility` as a table transformer: tombstone
branches issue the scoped `deleteMany` directly; the delta branch runs the
transaction, whose failure rolls back to the original table. -/
def computeEligibility (s : Store) (table : List EligRecord)
    (offerId offerType merchantId : String) (now : Nat) : List EligRecord :=
  match computePlan s table offerId offerType merchantId now with
  | .tombstone =>
    table.filter (fun r => !(r.offerId == offerId && r.offerType == offerType))
  | .delta toCreate toUpdate toDelete =>
    match runTxList now (txStatements toCreate toUpdate toDelete) table with
    | .ok t => t
    | .error _ => table

/-! ## The earlier delete-and-recreate `EligibilityService` (`src/unnamed/part_003`) -/

/-- The earlier `getOfferDetails`: only `Cashback` and `Exclusive` are handled
(selecting `eligibleCustomerTypes`, `startDate`, `endDate`); `Loyalty` falls
into the default `null` branch.  The selected shape is reused as an
`OfferDescriptor` whose `isActive`/`deletedAt` are unused by the old service. -/
def oldGetOfferDetails (s : Store) (offerId offerType : String) :
    Option OfferDescriptor :=
  if offerType = "Cashback" then
    (s.cashbacks.find? (fun c => c.id == offerId)).map (fun c =>
      { eligibleCustomerTypes := c.eligibleCustomerTypes
        startDate := c.startDate, endDate := c.endDate
        isActive := true, deletedAt := none })
  else if offerType = "Exclusive" then
    (s.exclusives.find? (fun e => e.id == offerId)).map (fun e =>
      { eligibleCustomerTypes := e.eligibleCustomerTypes
        startDate := some e.startDate, endDate := some e.endDate
        isActive := true, deletedAt := none })
  else none

/-- The earlier desired set: ALL outlets of the merchant (no `isActive` filter)
crossed with customer types whose `type` is in the eligible list (no `All`
expansion). -/
def oldDesiredRecords (s : Store) (offerId offerType merchantId : String)
    (offer : OfferDescriptor) (now : Nat) : List NewRecord :=
  (s.customerTypes.filter (fun ct =>
      ct.merchantId == merchantId && offer.eligibleCustomerTypes.contains ct.type)).flatMap
    (fun ct =>
      (s.outlets.filter (fun o => o.merchantId == merchantId)).map (fun outlet =>
        { userId := ct.userId
          outletId := outlet.id
          offerType := offerType
          offerId := offerId
          merchantId := merchantId
          isEligible := true
          validFrom := offer.startDate.getD now
          validUntil := offer.endDate.getD (now + yearMs)
          lastUpdated := now }))

/-- `createMany` WITHOUT `skipDuplicates`: fails on the first row whose unique
key collides with the table or with a previously inserted row of the batch. -/
def insertStrict (table : List EligRecord) (rows : List NewRecord)
    (fid now : Nat) : Option (List EligRecord) :=
  match rows with
  | [] => some table
  | n :: rest =>
    if table.any (fun r => rowKey r == newRowKey n) then none
    else insertStrict (table ++ [mkRow n fid now]) rest (fid + 1) now

/-- The earlier `computeEligibility`: missing offer (including every `Loyalty`
offer and unknown kinds) returns without touching the table; otherwise it
deletes every row of the offer and recreates the full desired set.  `none`
models the unique-key failure of its unguarded `createMany` (note the preceding
`deleteMany` is NOT inside a transaction with it). -/
def oldComputeEligibility (s : Store) (table : List EligRecord)
    (offerId offerType merchantId : String) (now : Nat) :
    Option (List EligRecord) :=
  match oldGetOfferDetails s offerId offerType with
  | none => some table
  | some offer =>
    let afterDelete :=
      table.filter (fun r => !(r.offerId == offerId && r.offerType == offerType))
    insertStrict afterDelete
      (oldDesiredRecords s offerId offerType merchantId offer now)
      (freshIdFor afterDelete) now

/-! ## Cache gateway (`CacheService`) and Redis glob matching -/

/-- Redis `KEYS` glob matching over the characters used by this code base:
`*` matches any sequence (the rest of the pattern must match some suffix),
`?` one character, anything else literal. -/
def globMatchAux : List Char → List Char → Bool
  | [], s => s.isEmpty
  | '*' :: ps, s => s.tails.any (fun t => globMatchAux ps t)
  | '?' :: ps, s =>
    match s with
    | [] => false
    | _ :: cs => globMatchAux ps cs
  | p :: ps, s =>
    match s with
    | [] => false
    | c :: cs => p == c && globMatchAux ps cs

/-- Glob-match a pattern against a key. -/
def globMatch (pattern key : String) : Bool :=
  globMatchAux pattern.data key.data

/-- A cache entry: key, serialized value, TTL seconds (from `setex`). -/
structure CacheEntry (α : Type) where
  key : String
  value : α
  ttl : Nat
deriving DecidableEq, Repr

/-- The cache state. -/
def Cache (α : Type) : Type := List (CacheEntry α)

/-- `CacheService.get`. -/
def cacheGet (c : Cache α) (key : String) : Option α :=
  (c.find? (fun e => e.key == key)).map (fun e => e.value)

/-- `CacheService.set` (a fresh `setex` replaces any previous entry). -/
def cacheSet (c : Cache α) (key : String) (value : α) (ttl : Nat) : Cache α :=
  ⟨key, value, ttl⟩ :: c.filter (fun e => !(e.key == key))

/-- `CacheService.invalidate`: `KEYS pattern` then `DEL` of every match. -/
def cacheInvalidate (c : Cache α) (pattern : String) : Cache α :=
  c.filter (fun e => !globMatch pattern e.key)

/-! ## Read path (`OptimizedOffersResolver`) -/

/-- JS `a || b` on an optional string: the empty string is falsy. -/
def strOr (a : Option String) (b : String) : String :=
  match a with
  | some s => if s = "" then b else s
  | none => b

/-- The inline cache key of `getOffers`:
`` `offers:${userId}:outlet:${outletId || 'all'}:type:${offerType || 'all'}:merchants:${merchantIds}:page:${page}:limit:${limit}` ``
where `merchantIds` is the comma-join of the user's customer-type merchants. -/
def buildCacheKey (s : Store) (userId : String) (outletId offerType : Option String)
    (limit page : Nat) : String :=
  let merchantIds := String.intercalate ","
    ((s.customerTypes.filter (fun ct => ct.userId == userId)).map
      (fun ct => ct.merchantId))
  "offers:" ++ userId ++ ":outlet:" ++ strOr outletId "all" ++
    ":type:" ++ strOr offerType "all" ++ ":merchants:" ++ merchantIds ++
    ":page:" ++ toString page ++ ":limit:" ++ toString limit

/-- The pattern the `EligibilityWorker` invalidates after a successful write:
`` `offers:*:merchant:${merchantId}` ``. -/
def workerInvalidationPattern (merchantId : String) : String :=
  "offers:*:merchant:" ++ merchantId

/-- The eligibility-row `where` clause of the read path: user match, the
optional outlet/type filters (dropped when absent or empty, JS truthiness),
`isEligible: true`, and `validFrom ≤ now ≤ validUntil`. -/
def readMatches (userId : String) (outletId offerType : Option String)
    (now : Nat) (r : EligRecord) : Bool :=
  r.userId == userId &&
  (match outletId with
   | some o => if o = "" then true else r.outletId == o
   | none => true) &&
  (match offerType with
   | some t => if t = "" then true else r.offerType == t
   | none => true) &&
  r.isEligible &&
  (decide (r.validFrom ≤ now) && decide (now ≤ r.validUntil))

/-- An enriched offer of the response (the resolver also attaches the
eligibility window of the row it joined with). -/
structure OfferOut where
  id : String
  name : String
  description : Option String
  offerType : String
  startDate : Nat
  endDate : Nat
  isActive : Bool
  merchantId : String
  outlets : List OutletInfo
  validFrom : Nat
  validUntil : Nat
deriving DecidableEq, Repr

/-- The `eligibilityMap` of `enrichOffers`: a JS `Map` keyed by `offerId`, so a
later row with the same `offerId` overwrites an earlier one (last wins). -/
def eligibilityLookup (rows : List EligRecord) (offerId : String) :
    Option EligRecord :=
  rows.reverse.find? (fun r => r.offerId == offerId)

/-- `enrichOffers`: group row offer ids by type (only `Cashback` and
`Exclusive` are handled), batch-fetch the active payloads per type, and join
each with the window of the map's row for that id.  The source's non-null map
assertion appears as the `filterMap` over `eligibilityLookup` (always `some`
for fetched ids). -/
def enrichOffers (s : Store) (rows : List EligRecord) (now : Nat) : List OfferOut :=
  let cashbackIds := (rows.filter (fun r => r.offerType == "Cashback")).map
    (fun r => r.offerId)
  let exclusiveIds := (rows.filter (fun r => r.offerType == "Exclusive")).map
    (fun r => r.offerId)
  let cashbackOffers : List OfferOut :=
    if cashbackIds.isEmpty then [] else
      (s.cashbacks.filter (fun cb => cashbackIds.contains cb.id && cb.isActive)).filterMap
        (fun cb =>
          match eligibilityLookup rows cb.id with
          | none => none
          | some e => some
            { id := cb.id, name := cb.name, description := none
              offerType := "Cashback"
              startDate := cb.startDate.getD now, endDate := cb.endDate.getD now
              isActive := cb.isActive, merchantId := cb.merchantId
              outlets := cb.Outlets
              validFrom := e.validFrom, validUntil := e.validUntil })
  let exclusiveOffers : List OfferOut :=
    if exclusiveIds.isEmpty then [] else
      (s.exclusives.filter (fun ex => exclusiveIds.contains ex.id && ex.isActive)).filterMap
        (fun ex =>
          match eligibilityLookup rows ex.id with
          | none => none
          | some e => some
            { id := ex.id, name := ex.name, description := ex.description
              offerType := "Exclusive"
              startDate := ex.startDate, endDate := ex.endDate
              isActive := ex.isActive, merchantId := ex.merchantId.getD ""
              outlets := ex.Outlets
              validFrom := e.validFrom, validUntil := e.validUntil })
  cashbackOffers ++ exclusiveOffers

/-- The read-path response shape. -/
structure OffersResponse where
  offers : List OfferOut
  total : Nat
  hasMore : Bool
  page : Nat
deriving DecidableEq, Repr

/-- The count query of the cache-miss path. -/
def countMatching (table : List EligRecord) (userId : String)
    (outletId offerType : Option String) (now : Nat) : Nat :=
  table.countP (readMatches userId outletId offerType now)

/-- Insert a record in front of the first strictly older one (`createdAt`
descending). -/
def insertByCreatedAtDesc (r : EligRecord) : List EligRecord → List EligRecord
  | [] => [r]
  | x :: xs =>
    if x.createdAt ≤ r.createdAt then r :: x :: xs
    else x :: insertByCreatedAtDesc r xs

/-- `orderBy: { createdAt: 'desc' }`; the database leaves the order among equal
timestamps unspecified, this model fixes one such order. -/
def sortByCreatedAtDesc : List EligRecord → List EligRecord
  | [] => []
  | r :: rest => insertByCreatedAtDesc r (sortByCreatedAtDesc rest)

/-- The `findMany` page of the cache-miss path: matching rows ordered by
`createdAt` descending, then `skip = (page-1)*limit`, `take = limit`. -/
def pageRows (table : List EligRecord) (userId : String)
    (outletId offerType : Option String) (limit page now : Nat) :
    List EligRecord :=
  ((sortByCreatedAtDesc (table.filter (readMatches userId outletId offerType now))).drop
    ((page - 1) * limit)).take limit

/-- The cache-miss computation of `getOffers`: the response together with the
TTL it is cached under (60 s for the empty page, 300 s otherwise). -/
def getOffersMiss (s : Store) (table : List EligRecord) (userId : String)
    (outletId offerType : Option String) (limit page now : Nat) :
    OffersResponse × Nat :=
  let total := countMatching table userId outletId offerType now
  let rows := pageRows table userId outletId offerType limit page now
  if rows.isEmpty then
    ({ offers := [], total := 0, hasMore := false, page := page }, 60)
  else
    ({ offers := enrichOffers s rows now
       total := total
       hasMore := decide (page * limit < total)
       page := page }, 300)

/-- The full `getOffers`: cache hit returns the cached payload verbatim,
otherwise the miss computation is cached under the computed key and TTL. -/
def getOffers (s : Store) (table : List EligRecord) (cache : Cache OffersResponse)
    (userId : String) (outletId offerType : Option String) (limit page now : Nat) :
    OffersResponse × Cache OffersResponse :=
  let key := buildCacheKey s userId outletId offerType limit page
  match cacheGet cache key with
  | some cached => (cached, cache)
  | none =>
    let (resp, ttl) := getOffersMiss s table userId outletId offerType limit page now
    (resp, cacheSet cache key resp ttl)

/-! ## Worker (`EligibilityWorker.processJob`) -/

/-- `processJob`: compute eligibility for the event's offer, then invalidate
the merchant-scoped cache pattern.  The pure model never throws, mirroring the
fact that none of the handler's branches raise for a malformed offer kind (the
offer is simply "not found"), so BullMQ marks such jobs completed, not retried. -/
def processJob (s : Store) (table : List EligRecord) (cache : Cache OffersResponse)
    (offerId offerType merchantId : String) (now : Nat) :
    List EligRecord × Cache OffersResponse :=
  (computeEligibility s table offerId offerType merchantId now,
   cacheInvalidate cache (workerInvalidationPattern merchantId))

/-! ## Concrete fixtures (mirroring the repository's seed data shapes) -/

/-- A cashback offer eligible to Gold and Platinum customers. -/
def cxCashback : CashbackConfiguration :=
  { id := "cashback-001"
    name := "20% Cashback for Gold Members"
    merchantId := "merchant-001"
    eligibleCustomerTypes := ["Gold", "Platinum"]
    startDate := some 100
    endDate := some 999999
    isActive := true
    deletedAt := none
    Outlets := [] }

/-- A store with two active outlets and customers U1:Gold, U2:Silver. -/
def cxStore : Store :=
  { cashbacks := [cxCashback]
    exclusives := []
    loyaltyPrograms := []
    outlets := [⟨"outlet-001", "merchant-001", true⟩, ⟨"outlet-002", "merchant-001", true⟩]
    customerTypes := [⟨"user-123", "merchant-001", "Gold"⟩,
                      ⟨"user-456", "merchant-001", "Silver"⟩] }

/-- A cashback offer with NO stored dates, so its validity window is defaulted
from the clock of each run. -/
def undatedCashback : CashbackConfiguration :=
  { id := "c1"
    name := "c"
    merchantId := "m1"
    eligibleCustomerTypes := ["Gold"]
    startDate := none
    endDate := none
    isActive := true
    deletedAt := none
    Outlets := [] }

/-- A one-customer, one-outlet store around `undatedCashback`. -/
def undatedStore : Store :=
  { cashbacks := [undatedCashback]
    exclusives := []
    loyaltyPrograms := []
    outlets := [⟨"o1", "m1", true⟩]
    customerTypes := [⟨"u1", "m1", "Gold"⟩] }

/-- A stored eligibility row for offer `c1`, valid on `[0, 100]`. -/
def sampleRow : EligRecord :=
  { id := 1
    userId := "u1"
    outletId := "o1"
    offerType := "Cashback"
    offerId := "c1"
    merchantId := "m1"
    isEligible := true
    validFrom := 0
    validUntil := 100
    lastUpdated := 0
    createdAt := 0 }

/-- The same row as a `Loyalty` eligibility fact. -/
def loyaltyRow : EligRecord :=
  { sampleRow with offerType := "Loyalty", offerId := "l1" }

/-- A store with no offers at all. -/
def emptyStore : Store := ⟨[], [], [], [], []⟩

/-- A recognizable pre-write cached response. -/
def staleResp : OffersResponse := { offers := [], total := 5, hasMore := false, page := 1 }

set_option maxRecDepth 100000

/-! ## C1 — worker cache invalidation -/

/-- C1: the eligibility worker's post-commit invalidation pattern
`offers:*:merchant:M` does not glob-match the read path's cache key for a user
of merchant M (read keys use `:merchants:` and end in `:page:P:limit:L`), so
the invalidation deletes nothing and a reader still gets a cache hit on the
pre-write response.  This refutes the claim that every cached read-path
response for the merchant is deleted. -/
theorem C1_invalidation_leaves_stale_merchant_entry :
    globMatch (workerInvalidationPattern "merchant-001")
      (buildCacheKey cxStore "user-123" none none 100 1) = false ∧
    cacheGet
      (cacheInvalidate
        [⟨buildCacheKey cxStore "user-123" none none 100 1, staleResp, 300⟩]
        (workerInvalidationPattern "merchant-001"))
      (buildCacheKey cxStore "user-123" none none 100 1) = some staleResp := by
  decide

/-! ## C10 — injectivity of the composite diff key -/

/-- In `l₁ ++ c :: r₁ = l₂ ++ c :: r₂`, if `c` occurs in neither prefix then
both sides split identically at the separator. -/
theorem append_sep_inj {c : Char} :
    ∀ {l₁ l₂ r₁ r₂ : List Char}, c ∉ l₁ → c ∉ l₂ →
      l₁ ++ c :: r₁ = l₂ ++ c :: r₂ → l₁ = l₂ ∧ r₁ = r₂ := by
  intro l₁
  induction l₁ with
  | nil =>
    intro l₂ r₁ r₂ _ h₂ heq
    cases l₂ with
    | nil => simpa using heq
    | cons b t =>
      simp only [List.nil_append, List.cons_append, List.cons.injEq] at heq
      obtain ⟨rfl, -⟩ := heq
      exact absurd (List.mem_cons_self _ _) h₂
  | cons a l ih =>
    intro l₂ r₁ r₂ h₁ h₂ heq
    cases l₂ with
    | nil =>
      simp only [List.cons_append, List.nil_append, List.cons.injEq] at heq
      obtain ⟨rfl, -⟩ := heq
      exact absurd (List.mem_cons_self _ _) h₁
    | cons b t =>
      simp only [List.cons_append, List.cons.injEq] at heq
      obtain ⟨rfl, heq⟩ := heq
      have := ih (fun h => h₁ (List.mem_cons_of_mem _ h))
        (fun h => h₂ (List.mem_cons_of_mem _ h)) heq
      exact ⟨by rw [this.1], this.2⟩

/-- C10 (counterexample): the composite key `userId + ":" + outletId` is NOT
injective once ids may contain the separator: the distinct pairs
`("a:b", "c")` and `("a", "b:c")` produce the same key. -/
theorem C10_key_collision :
    recKey "a:b" "c" = recKey "a" "b:c" ∧
    (("a:b", "c") : String × String) ≠ ("a", "b:c") := by
  exact ⟨rfl, by decide⟩

/-- The composite key splits uniquely at the separator when the user ids are
colon-free. -/
theorem recKey_sep_inj {u₁ o₁ u₂ o₂ : String}
    (h₁ : ':' ∉ u₁.data) (h₂ : ':' ∉ u₂.data)
    (heq : recKey u₁ o₁ = recKey u₂ o₂) : u₁ = u₂ ∧ o₁ = o₂ := by
  have hdata : u₁.data ++ ':' :: o₁.data = u₂.data ++ ':' :: o₂.data := by
    have h := congrArg String.data heq
    simpa [recKey, String.data_append] using h
  have := append_sep_inj h₁ h₂ hdata
  exact ⟨String.ext this.1, String.ext this.2⟩

/-- C10 (amended): the composite key is injective on pairs whose `userId`
contains no colon; two such pairs with equal keys are equal componentwise. -/
theorem C10_key_injective_colon_free (u₁ o₁ u₂ o₂ : String)
    (h₁ : ':' ∉ u₁.data) (h₂ : ':' ∉ u₂.data)
    (heq : recKey u₁ o₁ = recKey u₂ o₂) : u₁ = u₂ ∧ o₁ = o₂ :=
  recKey_sep_inj h₁ h₂ heq

/-- C10 witness: the amended injectivity applied at colon-free inputs. -/
theorem C10_key_injective_colon_free_witness :
    ("u1" : String) = "u1" ∧ ("o1" : String) = "o1" :=
  C10_key_injective_colon_free "u1" "o1" "u1" "o1"
    (by decide) (by decide) rfl

/-! ## C2 — idempotence of the diff on an unchanged store -/

/-- C2 (counterexample): for an offer without stored dates the desired window
is defaulted from the clock, so re-running `computeEligibility` on the
unchanged store at a later clock produces a non-empty `toUpdate` — the diff is
not idempotent as claimed. -/
theorem C2_second_run_produces_updates :
    computePlan undatedStore
      (computeEligibility undatedStore [] "c1" "Cashback" "m1" 0)
      "c1" "Cashback" "m1" 1000 =
    .delta []
      [{ id := 1, validFrom := 1000, validUntil := 31536001000, lastUpdated := 1000 }]
      [] := by
  decide

/-! ## C7 — pagination invariant of the read path -/

/-- C7 (counterexample): on a page past the end of the result set the resolver
returns the empty response with `total = 0` even though one eligibility record
matches the filters, refuting "the returned total equals the count ...
including on pages past the end". -/
theorem C7_total_zero_past_end :
    (getOffersMiss undatedStore [sampleRow] "u1" none none 1 2 50).1.total = 0 ∧
    countMatching [sampleRow] "u1" none none 50 = 1 := by
  decide

/-! ## C8 — enrichment of the cache-miss response -/

/-- C8 (counterexample): a cache miss fetching exactly one eligibility row (a
`Loyalty` row) produces a response with NO offers — `enrichOffers` only handles
`Cashback` and `Exclusive` — yet caches it under the 300-second TTL; this
refutes "one enriched offer per fetched eligibility row ... (Cashback,
Exclusive and Loyalty)". -/
theorem C8_loyalty_rows_not_enriched :
    (pageRows [loyaltyRow] "u1" none none 100 1 50).length = 1 ∧
    getOffersMiss undatedStore [loyaltyRow] "u1" none none 100 1 50 =
      ({ offers := [], total := 1, hasMore := false, page := 1 }, 300) := by
  decide

/-! ## C9 — old/new `computeEligibility` equivalence -/

/-- C9 (counterexample): from the same snapshot (offer absent, one stored row)
the diff-based service empties the table while the delete-and-recreate service
returns without touching it — the two do not leave the same final state. -/
theorem C9_old_new_diverge_on_missing_offer :
    computeEligibility emptyStore [sampleRow] "c1" "Cashback" "m1" 0 = [] ∧
    oldComputeEligibility emptyStore [sampleRow] "c1" "Cashback" "m1" 0 =
      some [sampleRow] := by
  decide

/-! ## C4 — tombstone conditions -/

/-- The tombstone branch of `computePlan` is taken exactly when the offer is
missing, disabled, or without active outlets. -/
theorem computePlan_tombstone_iff (s : Store) (table : List EligRecord)
    (offerId offerType merchantId : String) (now : Nat) :
    computePlan s table offerId offerType merchantId now = .tombstone ↔
      getOfferDetails s offerId offerType = none ∨
      (∃ o, getOfferDetails s offerId offerType = some o ∧
        (o.isActive = false ∨ o.deletedAt ≠ none)) ∨
      activeOutlets s merchantId = [] := by
  unfold computePlan
  cases heq : getOfferDetails s offerId offerType with
  | none => simp
  | some o =>
    simp only [Option.some.injEq, reduceCtorEq, false_or]
    by_cases hact : (!o.isActive || o.deletedAt.isSome) = true
    · rw [if_pos hact]
      simp only [Bool.or_eq_true, Bool.not_eq_true', Option.isSome_iff_ne_none] at hact
      simp only [true_iff]
      left
      exact ⟨o, rfl, hact⟩
    · rw [if_neg hact]
      simp only [Bool.or_eq_true, Bool.not_eq_true', Option.isSome_iff_ne_none,
        not_or] at hact
      by_cases hout : (activeOutlets s merchantId).isEmpty = true
      · rw [if_pos hout]
        simp only [true_iff]
        right
        exact List.isEmpty_iff.mp hout
      · rw [if_neg hout]
        simp only [reduceCtorEq, false_iff, not_or]
        refine ⟨?_, ?_⟩
        · rintro ⟨o', rfl, hbad⟩
          rcases hbad with h | h
          · exact hact.1 h
          · exact hact.2 h
        · exact fun h => hout (by simp [h])

/-- C4: `computeEligibility` takes a tombstone branch exactly when the offer is
not found, inactive or soft-deleted, or the merchant has no active outlet; and
a tombstone deletes exactly the stored rows of the given `(offerId, offerType)`
while creating and updating nothing. -/
theorem C4_tombstone_iff (s : Store) (table : List EligRecord)
    (offerId offerType merchantId : String) (now : Nat) :
    (computePlan s table offerId offerType merchantId now = .tombstone ↔
      getOfferDetails s offerId offerType = none ∨
      (∃ o, getOfferDetails s offerId offerType = some o ∧
        (o.isActive = false ∨ o.deletedAt ≠ none)) ∨
      activeOutlets s merchantId = []) ∧
    (computePlan s table offerId offerType merchantId now = .tombstone →
      ∀ r, r ∈ computeEligibility s table offerId offerType merchantId now ↔
        r ∈ table ∧ ¬(r.offerId = offerId ∧ r.offerType = offerType)) := by
  constructor
  · exact computePlan_tombstone_iff s table offerId offerType merchantId now
  · intro htomb r
    unfold computeEligibility
    rw [htomb]
    simp only [List.mem_filter, Bool.not_eq_eq_eq_not, Bool.not_true,
      Bool.and_eq_false_imp]
    constructor
    · rintro ⟨hr, hcond⟩
      refine ⟨hr, ?_⟩
      rintro ⟨h1, h2⟩
      simp [h1, h2] at hcond
    · rintro ⟨hr, hcond⟩
      refine ⟨hr, ?_⟩
      by_cases h1 : r.offerId = offerId
      · by_cases h2 : r.offerType = offerType
        · exact absurd ⟨h1, h2⟩ hcond
        · simp [h1, h2]
      · simp [h1]

/-- C4 witness: the tombstone clause evaluated on the empty store at a concrete
row. -/
theorem C4_tombstone_iff_witness :
    sampleRow ∈ [sampleRow] ∧ ¬(sampleRow.offerId = "c1" ∧ sampleRow.offerType = "Loyalty") :=
  ((C4_tombstone_iff emptyStore [sampleRow] "c1" "Loyalty" "m1" 0).2 (by decide)
    sampleRow).mp (by decide)

/-! ## Membership characterizations of the diff inputs -/

/-- Membership in the active-outlet query. -/
theorem mem_activeOutlets {s : Store} {m : String} {out : Outlet} :
    out ∈ activeOutlets s m ↔
      out ∈ s.outlets ∧ out.merchantId = m ∧ out.isActive = true := by
  simp [activeOutlets, List.mem_filter, and_assoc]

/-- Membership in the customer-type query, `All` expansion included. -/
theorem mem_matchingCustomerTypes {s : Store} {m : String} {elig : List String}
    {ct : CustomerType} :
    ct ∈ matchingCustomerTypes s m elig ↔
      ct ∈ s.customerTypes ∧ ct.merchantId = m ∧
        (elig.contains "All" = true ∨ ct.type ∈ elig) := by
  unfold matchingCustomerTypes
  by_cases hall : elig.contains "All" = true
  · rw [if_pos hall]
    simp only [List.mem_filter, beq_iff_eq, and_assoc]
    have hmem : "All" ∈ elig := List.elem_iff.mp hall
    simp [hmem]
  · rw [if_neg hall]
    have hmem : "All" ∉ elig := fun h => hall (List.elem_iff.mpr h)
    simp [List.mem_filter, hmem, and_assoc, decide_eq_true_iff]

/-- Membership in the desired set: one record per (matching customer type,
active outlet) pair. -/
theorem mem_desiredRecords {s : Store} {offerId offerType merchantId : String}
    {o : OfferDescriptor} {now : Nat} {r : NewRecord} :
    r ∈ desiredRecords s offerId offerType merchantId o now ↔
      ∃ ct ∈ matchingCustomerTypes s merchantId o.eligibleCustomerTypes,
        ∃ out ∈ activeOutlets s merchantId,
          r = { userId := ct.userId, outletId := out.id, offerType := offerType
                offerId := offerId, merchantId := merchantId, isEligible := true
                validFrom := o.startDate.getD now
                validUntil := o.endDate.getD (now + yearMs), lastUpdated := now } := by
  simp only [desiredRecords, List.mem_flatMap, List.mem_map]
  constructor
  · rintro ⟨ct, hct, out, hout, rfl⟩
    exact ⟨ct, hct, out, hout, rfl⟩
  · rintro ⟨ct, hct, out, hout, rfl⟩
    exact ⟨ct, hct, out, hout, rfl⟩

/-! ## C3 — the desired set is a cross product -/

/-- C3: for a found, active, non-deleted offer of a merchant with at least one
active outlet, the diff branch is taken on the desired set, and that desired
set is exactly the cross product of the merchant's customer-type rows whose
type is eligible (all of them under the sentinel `All`) with the merchant's
active outlets, keyed by `(userId, outletId)`; on the concrete
Gold/Platinum-gated offer with customers U1:Gold, U2:Silver and outlets O1, O2
this yields exactly `[(U1,O1), (U1,O2)]`. -/
theorem C3_desired_set_cross_product :
    (∀ (s : Store) (table : List EligRecord)
        (offerId offerType merchantId : String) (o : OfferDescriptor) (now : Nat),
      getOfferDetails s offerId offerType = some o →
      o.isActive = true → o.deletedAt = none → activeOutlets s merchantId ≠ [] →
      computePlan s table offerId offerType merchantId now =
        .delta
          ((desiredRecords s offerId offerType merchantId o now).filter (fun r =>
            !((existingFor table offerId offerType).map (fun e =>
                recKey e.userId e.outletId)).contains (recKey r.userId r.outletId)))
          (toUpdateList (existingFor table offerId offerType)
            (desiredRecords s offerId offerType merchantId o now)
            ((desiredRecords s offerId offerType merchantId o now).map (fun r =>
              recKey r.userId r.outletId)) now)
          ((existingFor table offerId offerType).filter (fun e =>
            !((desiredRecords s offerId offerType merchantId o now).map (fun r =>
                recKey r.userId r.outletId)).contains (recKey e.userId e.outletId)))) ∧
    (∀ (s : Store) (offerId offerType merchantId : String) (o : OfferDescriptor)
        (now : Nat) (u oid : String),
      (∃ r ∈ desiredRecords s offerId offerType merchantId o now,
          r.userId = u ∧ r.outletId = oid) ↔
        ((∃ ct ∈ s.customerTypes, ct.merchantId = merchantId ∧
            (o.eligibleCustomerTypes.contains "All" = true ∨
              ct.type ∈ o.eligibleCustomerTypes) ∧ ct.userId = u) ∧
          (∃ out ∈ s.outlets, out.merchantId = merchantId ∧ out.isActive = true ∧
            out.id = oid))) ∧
    (getOfferDetails cxStore "cashback-001" "Cashback").map (fun d =>
        (desiredRecords cxStore "cashback-001" "Cashback" "merchant-001" d 0).map
          (fun r => (r.userId, r.outletId))) =
      some [("user-123", "outlet-001"), ("user-123", "outlet-002")] := by
  refine ⟨?_, ?_, by decide⟩
  · intro s table offerId offerType merchantId o now heq hact hdel hout
    have h2 : (activeOutlets s merchantId).isEmpty = false := by
      cases hto : (activeOutlets s merchantId).isEmpty
      · rfl
      · exact absurd (List.isEmpty_iff.mp hto) hout
    simp [computePlan, heq, hact, hdel, h2]
  · intro s offerId offerType merchantId o now u oid
    constructor
    · rintro ⟨r, hr, hu, ho⟩
      obtain ⟨ct, hct, out, hout, rfl⟩ := mem_desiredRecords.mp hr
      obtain ⟨hct1, hct2, hct3⟩ := mem_matchingCustomerTypes.mp hct
      obtain ⟨ho1, ho2, ho3⟩ := mem_activeOutlets.mp hout
      exact ⟨⟨ct, hct1, hct2, hct3, hu⟩, ⟨out, ho1, ho2, ho3, ho⟩⟩
    · rintro ⟨⟨ct, hct1, hct2, hct3, hu⟩, ⟨out, ho1, ho2, ho3, ho⟩⟩
      refine ⟨_, mem_desiredRecords.mpr
        ⟨ct, mem_matchingCustomerTypes.mpr ⟨hct1, hct2, hct3⟩,
         out, mem_activeOutlets.mpr ⟨ho1, ho2, ho3⟩, rfl⟩, hu, ho⟩

/-- C3 witness: the delta-branch clause instantiated on the concrete store. -/
theorem C3_desired_set_cross_product_witness :
    computePlan cxStore [] "cashback-001" "Cashback" "merchant-001" 0 =
      .delta
        ((desiredRecords cxStore "cashback-001" "Cashback" "merchant-001"
            { eligibleCustomerTypes := ["Gold", "Platinum"], startDate := some 100
              endDate := some 999999, isActive := true, deletedAt := none } 0).filter
          (fun r =>
            !((existingFor [] "cashback-001" "Cashback").map (fun e =>
                recKey e.userId e.outletId)).contains (recKey r.userId r.outletId)))
        (toUpdateList (existingFor [] "cashback-001" "Cashback")
          (desiredRecords cxStore "cashback-001" "Cashback" "merchant-001"
            { eligibleCustomerTypes := ["Gold", "Platinum"], startDate := some 100
              endDate := some 999999, isActive := true, deletedAt := none } 0)
          ((desiredRecords cxStore "cashback-001" "Cashback" "merchant-001"
              { eligibleCustomerTypes := ["Gold", "Platinum"], startDate := some 100
                endDate := some 999999, isActive := true, deletedAt := none } 0).map
            (fun r => recKey r.userId r.outletId)) 0)
        ((existingFor [] "cashback-001" "Cashback").filter (fun e =>
          !((desiredRecords cxStore "cashback-001" "Cashback" "merchant-001"
              { eligibleCustomerTypes := ["Gold", "Platinum"], startDate := some 100
                endDate := some 999999, isActive := true, deletedAt := none } 0).map
            (fun r => recKey r.userId r.outletId)).contains
              (recKey e.userId e.outletId))) :=
  C3_desired_set_cross_product.1 cxStore [] "cashback-001" "Cashback" "merchant-001"
    _ 0 (by decide) (by decide) (by decide) (by decide)

/-! ## Transaction machinery lemmas -/

/-- Every chunk produced with sufficient fuel has at most `n + 1` elements. -/
theorem chunksOfAux_length_le {α : Type} (n : Nat) :
    ∀ (fuel : Nat) (l : List α), l.length ≤ fuel →
      ∀ b ∈ chunksOfAux n fuel l, b.length ≤ n + 1 := by
  intro fuel
  induction fuel with
  | zero =>
    intro l hl b hb
    have : l = [] := List.eq_nil_of_length_eq_zero (Nat.le_zero.mp hl)
    subst this
    simp [chunksOfAux] at hb
  | succ fuel ih =>
    intro l hl b hb
    cases l with
    | nil => simp [chunksOfAux] at hb
    | cons a t =>
      have hlen : t.length ≤ fuel := by simpa using hl
      simp only [chunksOfAux, List.mem_cons] at hb
      rcases hb with rfl | hb
      · simp only [List.length_cons, List.length_take]
        omega
      · exact ih (t.drop n) (by simp only [List.length_drop]; omega) b hb

/-- Chunks with sufficient fuel flatten back to the original list. -/
theorem chunksOfAux_flatten {α : Type} (n : Nat) :
    ∀ (fuel : Nat) (l : List α), l.length ≤ fuel →
      (chunksOfAux n fuel l).flatMap id = l := by
  intro fuel
  induction fuel with
  | zero =>
    intro l hl
    have : l = [] := List.eq_nil_of_length_eq_zero (Nat.le_zero.mp hl)
    subst this
    rfl
  | succ fuel ih =>
    intro l hl
    cases l with
    | nil => rfl
    | cons a t =>
      have hlen : t.length ≤ fuel := by simpa using hl
      simp only [chunksOfAux, List.flatMap_cons, id]
      rw [ih (t.drop n) (by simp only [List.length_drop]; omega)]
      simp [List.take_append_drop]

/-- Every chunk of `chunksOf n` has at most `n + 1` elements. -/
theorem mem_chunksOf_length_le {α : Type} {n : Nat} {l : List α} {b : List α}
    (hb : b ∈ chunksOf n l) : b.length ≤ n + 1 :=
  chunksOfAux_length_le n l.length l le_rfl b hb

/-- `chunksOf n` flattens back to the original list. -/
theorem chunksOf_flatten {α : Type} (n : Nat) (l : List α) :
    (chunksOf n l).flatMap id = l :=
  chunksOfAux_flatten n l.length l le_rfl

/-- `runTxList` over a concatenation runs the two halves in sequence. -/
theorem runTxList_append (now : Nat) (xs ys : List Stmt) (t : List EligRecord) :
    runTxList now (xs ++ ys) t =
      match runTxList now xs t with
      | .ok t' => runTxList now ys t'
      | .error e => .error e := by
  induction xs generalizing t with
  | nil => simp [runTxList]
  | cons st rest ih =>
    simp only [List.cons_append, runTxList]
    cases runStmt t now st with
    | ok t' => exact ih t'
    | error e => rfl

/-- The cumulative effect of the per-record updates on one row. -/
def updApply (u : List UpdateRecord) (x : EligRecord) : EligRecord :=
  match u.find? (fun r => r.id == x.id) with
  | some r => { x with validFrom := r.validFrom, validUntil := r.validUntil
                       lastUpdated := r.lastUpdated }
  | none => x

/-- Unfolding `updApply` one update at a time. -/
theorem updApply_cons (r : UpdateRecord) (rest : List UpdateRecord) (x : EligRecord) :
    updApply (r :: rest) x =
      if r.id == x.id then
        { x with validFrom := r.validFrom, validUntil := r.validUntil
                 lastUpdated := r.lastUpdated }
      else updApply rest x := by
  cases h : (r.id == x.id) with
  | true => simp [updApply, List.find?_cons, h]
  | false => simp [updApply, List.find?_cons, h]

/-- The update-statement segment of the transaction flattens to one statement
per `toUpdate` record, in order (batching only groups them). -/
theorem updateSeg_flatten (u : List UpdateRecord) :
    (chunksOf 499 u).flatMap (fun batch => batch.map updOf) = u.map updOf := by
  have h := congrArg (List.map updOf) (chunksOf_flatten 499 u)
  rw [← h, List.map_flatMap]
  rfl

/-- Running the per-record updates succeeds when every targeted id is present
and the ids are duplicate-free, and maps each row through `updApply`. -/
theorem runTxList_updates (now : Nat) :
    ∀ (u : List UpdateRecord) (t : List EligRecord),
      (∀ r ∈ u, t.any (fun x => x.id == r.id) = true) →
      (u.map (fun r => r.id)).Nodup →
      runTxList now (u.map updOf) t = .ok (t.map (updApply u)) := by
  intro u
  induction u with
  | nil =>
    intro t _ _
    have h : t.map (updApply []) = t := by
      rw [show updApply [] = id from funext fun x => rfl, List.map_id]
    simp [runTxList, h]
  | cons r rest ih =>
    intro t hpres hnodup
    have hnd := List.nodup_cons.mp (show (r.id :: rest.map (fun q => q.id)).Nodup by
      simpa using hnodup)
    have hr : t.any (fun x => x.id == r.id) = true := hpres r (List.mem_cons_self _ _)
    simp only [List.map_cons, runTxList, runStmt, updOf, hr, if_pos]
    set g : EligRecord → EligRecord := fun x =>
      if x.id == r.id then
        { x with validFrom := r.validFrom, validUntil := r.validUntil
                 lastUpdated := r.lastUpdated }
      else x with hg
    have hid1 : ∀ x : EligRecord, (g x).id = x.id := by
      intro x
      by_cases h : (x.id == r.id) = true
      · simp [hg, beq_iff_eq.mp h]
      · have hne : ¬x.id = r.id := fun hh => h (beq_iff_eq.mpr hh)
        simp [hg, hne]
    have hpres1 : ∀ q ∈ rest, (t.map g).any (fun x => x.id == q.id) = true := by
      intro q hq
      have hfull := hpres q (List.mem_cons_of_mem _ hq)
      rw [List.any_map]
      rw [List.any_eq_true] at hfull ⊢
      obtain ⟨x, hx, hxq⟩ := hfull
      refine ⟨x, hx, ?_⟩
      simpa [Function.comp, hid1 x] using hxq
    rw [ih (t.map g) hpres1 hnd.2]
    congr 1
    rw [List.map_map]
    apply List.map_congr_left
    intro x _
    simp only [Function.comp]
    rw [updApply_cons]
    by_cases h : (x.id == r.id) = true
    · have hxid : x.id = r.id := beq_iff_eq.mp h
      have hhead : (r.id == x.id) = true := beq_iff_eq.mpr hxid.symm
      rw [if_pos hhead]
      have hgx : g x = { x with validFrom := r.validFrom, validUntil := r.validUntil
                                lastUpdated := r.lastUpdated } := by
        simp [hg, beq_iff_eq.mp h]
      rw [hgx]
      unfold updApply
      have hrest : rest.find? (fun q =>
          q.id == ({ x with validFrom := r.validFrom, validUntil := r.validUntil
                            lastUpdated := r.lastUpdated } : EligRecord).id) = none := by
        rw [List.find?_eq_none]
        intro q hq hbad
        have hqid : q.id = x.id := beq_iff_eq.mp hbad
        exact hnd.1 (List.mem_map.mpr ⟨q, hq, by rw [hqid, hxid]⟩)
      rw [hrest]
    · have hhead : (r.id == x.id) = false := by
        cases hrx : (r.id == x.id) with
        | false => rfl
        | true => exact absurd (beq_iff_eq.mpr (beq_iff_eq.mp hrx).symm) (by simp [h])
      rw [if_neg (by simp [hhead])]
      have hgx : g x = x := by
        have hne : ¬x.id = r.id := fun hh => h (beq_iff_eq.mpr hh)
        simp [hg, hne]
      rw [hgx]


/-- Sequential insertion with per-row recomputed fresh ids (the content-level
view of `insertSkipDup`). -/
def insertSeq (t : List EligRecord) (rows : List NewRecord) (now : Nat) :
    List EligRecord :=
  match rows with
  | [] => t
  | n :: rest =>
    if t.any (fun r => rowKey r == newRowKey n) then insertSeq t rest now
    else insertSeq (t ++ [mkRow n (freshIdFor t) now]) rest now

/-- Floating the seed out of a `foldr max`. -/
theorem foldr_max_eq (l : List Nat) (a : Nat) :
    l.foldr max a = max (l.foldr max 0) a := by
  induction l with
  | nil => simp
  | cons x xs ih => simp [List.foldr_cons, ih, Nat.max_assoc]

/-- Appending a row with the current fresh id bumps the fresh id by one. -/
theorem freshIdFor_append (t : List EligRecord) (n : NewRecord) (now : Nat) :
    freshIdFor (t ++ [mkRow n (freshIdFor t) now]) = freshIdFor t + 1 := by
  unfold freshIdFor
  rw [List.map_append, List.foldr_append]
  simp only [List.map_cons, List.map_nil, List.foldr_cons, List.foldr_nil, mkRow]
  rw [foldr_max_eq]
  omega

/-- A batch insert with base fresh id equals sequential insertion. -/
theorem insertSkipDup_eq_insertSeq (now : Nat) :
    ∀ (rows : List NewRecord) (t : List EligRecord),
      insertSkipDup t rows (freshIdFor t) now = insertSeq t rows now := by
  intro rows
  induction rows with
  | nil => intro t; rfl
  | cons n rest ih =>
    intro t
    simp only [insertSkipDup, insertSeq]
    by_cases h : t.any (fun r => rowKey r == newRowKey n) = true
    · rw [if_pos h, if_pos h]
      exact ih t
    · rw [if_neg h, if_neg h]
      rw [← freshIdFor_append t n now]
      exact ih (t ++ [mkRow n (freshIdFor t) now])

/-- `insertSeq` over a concatenation inserts the two halves in sequence. -/
theorem insertSeq_append (now : Nat) :
    ∀ (r1 r2 : List NewRecord) (t : List EligRecord),
      insertSeq t (r1 ++ r2) now = insertSeq (insertSeq t r1 now) r2 now := by
  intro r1
  induction r1 with
  | nil => intro r2 t; rfl
  | cons n rest ih =>
    intro r2 t
    simp only [List.cons_append, insertSeq]
    by_cases h : t.any (fun r => rowKey r == newRowKey n) = true
    · rw [if_pos h, if_pos h]; exact ih r2 t
    · rw [if_neg h, if_neg h]; exact ih r2 _

/-- Running the chunked insert statements always succeeds and equals sequential
insertion of the whole `toCreate` list. -/
theorem runTxList_inserts (now : Nat) (c : List NewRecord) :
    ∀ (t : List EligRecord),
      runTxList now ((chunksOf 999 c).map .insertMany) t = .ok (insertSeq t c now) := by
  have main : ∀ (chs : List (List NewRecord)) (t : List EligRecord),
      runTxList now (chs.map .insertMany) t = .ok (insertSeq t (chs.flatMap id) now) := by
    intro chs
    induction chs with
    | nil => intro t; rfl
    | cons b rest ih =>
      intro t
      simp only [List.map_cons, runTxList, runStmt, List.flatMap_cons, id]
      rw [insertSkipDup_eq_insertSeq, insertSeq_append]
      exact ih _
  intro t
  rw [main, chunksOf_flatten]

/-! ## C6 — transactional write: order, batching, duplicate skipping, atomicity -/

/-- C6: the transaction issues the id-set delete first, then one update per
`toUpdate` record (grouped in batches of at most 500), then inserts in batches
of at most 1000; an insert whose unique key already exists is skipped rather
than an error and batch inserts never fail; and if any sub-step fails the
commit observes the original table (no partial application). -/
theorem C6_transaction_order_batches_atomicity :
    (∀ (c : List NewRecord) (u : List UpdateRecord) (d : List EligRecord),
      txStatements c u d =
        (if d.isEmpty then [] else [.deleteByIds (d.map (fun r => r.id))]) ++
          u.map updOf ++
          (if c.isEmpty then [] else (chunksOf 999 c).map .insertMany)) ∧
    (∀ (u : List UpdateRecord) (b : List UpdateRecord), b ∈ chunksOf 499 u →
      b.length ≤ 500) ∧
    (∀ (c : List NewRecord) (b : List NewRecord), b ∈ chunksOf 999 c →
      b.length ≤ 1000) ∧
    (∀ (t : List EligRecord) (n : NewRecord) (rows : List NewRecord) (fid now : Nat),
      t.any (fun r => rowKey r == newRowKey n) = true →
      insertSkipDup t (n :: rows) fid now = insertSkipDup t rows fid now) ∧
    (∀ (t : List EligRecord) (rows : List NewRecord) (now : Nat),
      runStmt t now (.insertMany rows) = .ok (insertSkipDup t rows (freshIdFor t) now)) ∧
    (∀ (s : Store) (table : List EligRecord) (offerId offerType merchantId : String)
        (now : Nat) (c : List NewRecord) (u : List UpdateRecord) (d : List EligRecord),
      computePlan s table offerId offerType merchantId now = .delta c u d →
      runTxList now (txStatements c u d) table = .error () →
      computeEligibility s table offerId offerType merchantId now = table) := by
  refine ⟨?_, ?_, ?_, ?_, ?_, ?_⟩
  · intro c u d
    unfold txStatements
    rw [updateSeg_flatten]
  · intro u b hb
    exact mem_chunksOf_length_le hb
  · intro c b hb
    exact mem_chunksOf_length_le hb
  · intro t n rows fid now h
    simp [insertSkipDup, h]
  · intro t rows now
    rfl
  · intro s table offerId offerType merchantId now c u d hplan htx
    unfold computeEligibility
    rw [hplan]
    dsimp only
    rw [htx]

/-- C6 witness: duplicate-skipping evaluated at a concrete collision, through
the theorem. -/
theorem C6_transaction_order_batches_atomicity_witness :
    insertSkipDup [sampleRow]
      [⟨"u1", "o1", "Cashback", "c1", "m1", true, 0, 5, 0⟩] 7 3 =
    insertSkipDup [sampleRow] [] 7 3 :=
  C6_transaction_order_batches_atomicity.2.2.2.1 [sampleRow]
    ⟨"u1", "o1", "Cashback", "c1", "m1", true, 0, 5, 0⟩ [] 7 3 (by decide)

/-! ## C5 — unknown offer kind -/

/-- C5: a job whose offer kind is outside Cashback/Exclusive/Loyalty hits the
default `null` branch of `getOfferDetails`, so the handler takes the
"offer not found" tombstone path, completes normally (BullMQ therefore marks
the job completed — it is dropped, not retried; the failure is only logged),
and, since every stored row carries one of the three known kinds, the
scoped `deleteMany` matches nothing and the stored eligibility state is
unchanged. -/
theorem C5_unknown_kind_job_noop (s : Store) (table : List EligRecord)
    (cache : Cache OffersResponse) (offerId offerType merchantId : String) (now : Nat)
    (hkind : offerType ∉ (["Cashback", "Exclusive", "Loyalty"] : List String))
    (hinv : ∀ r ∈ table, r.offerType ∈ (["Cashback", "Exclusive", "Loyalty"] : List String)) :
    getOfferDetails s offerId offerType = none ∧
    computePlan s table offerId offerType merchantId now = .tombstone ∧
    (processJob s table cache offerId offerType merchantId now).1 = table := by
  simp only [List.mem_cons, List.not_mem_nil, or_false, not_or] at hkind
  obtain ⟨h1, h2, h3⟩ := hkind
  have hgd : getOfferDetails s offerId offerType = none := by
    unfold getOfferDetails
    rw [if_neg h1, if_neg h2, if_neg h3]
  have hplan : computePlan s table offerId offerType merchantId now = .tombstone := by
    unfold computePlan
    rw [hgd]
  refine ⟨hgd, hplan, ?_⟩
  show computeEligibility s table offerId offerType merchantId now = table
  unfold computeEligibility
  rw [hplan]
  rw [List.filter_eq_self.mpr]
  intro r hr
  have := hinv r hr
  simp only [List.mem_cons, List.not_mem_nil, or_false] at this
  have hne : r.offerType ≠ offerType := by
    rcases this with h | h | h
    · exact fun hc => h1 (hc ▸ h ▸ rfl)
    · exact fun hc => h2 (hc ▸ h ▸ rfl)
    · exact fun hc => h3 (hc ▸ h ▸ rfl)
  simp [hne]

/-- C5 witness: a job with kind "Bogus" over a table holding one Cashback row. -/
theorem C5_unknown_kind_job_noop_witness :
    getOfferDetails emptyStore "c1" "Bogus" = none ∧
    computePlan emptyStore [sampleRow] "c1" "Bogus" "m1" 0 = .tombstone ∧
    (processJob emptyStore [sampleRow] [] "c1" "Bogus" "m1" 0).1 = [sampleRow] :=
  C5_unknown_kind_job_noop emptyStore [sampleRow] [] "c1" "Bogus" "m1" 0
    (by decide) (by decide)

/-! ## Final-state analysis of a delta run -/

/-- The desired window lower bound. -/
def winFrom (o : OfferDescriptor) (now : Nat) : Nat := o.startDate.getD now

/-- The desired window upper bound. -/
def winUntil (o : OfferDescriptor) (now : Nat) : Nat := o.endDate.getD (now + yearMs)

/-- The keys of the desired set (independent of the clock). -/
def diffNewKeys (s : Store) (offerId offerType merchantId : String)
    (o : OfferDescriptor) (now : Nat) : List String :=
  (desiredRecords s offerId offerType merchantId o now).map
    (fun r => recKey r.userId r.outletId)

/-- The `toCreate` bucket of the diff. -/
def diffToCreate (s : Store) (table : List EligRecord)
    (offerId offerType merchantId : String) (o : OfferDescriptor) (now : Nat) :
    List NewRecord :=
  (desiredRecords s offerId offerType merchantId o now).filter (fun r =>
    !((existingFor table offerId offerType).map (fun e =>
        recKey e.userId e.outletId)).contains (recKey r.userId r.outletId))

/-- The `toUpdate` bucket of the diff. -/
def diffToUpdate (s : Store) (table : List EligRecord)
    (offerId offerType merchantId : String) (o : OfferDescriptor) (now : Nat) :
    List UpdateRecord :=
  toUpdateList (existingFor table offerId offerType)
    (desiredRecords s offerId offerType merchantId o now)
    (diffNewKeys s offerId offerType merchantId o now) now

/-- The `toDelete` bucket of the diff. -/
def diffToDelete (s : Store) (table : List EligRecord)
    (offerId offerType merchantId : String) (o : OfferDescriptor) (now : Nat) :
    List EligRecord :=
  (existingFor table offerId offerType).filter (fun e =>
    !(diffNewKeys s offerId offerType merchantId o now).contains
      (recKey e.userId e.outletId))

/-- The table after the transaction's delete step. -/
def afterDeleteT (s : Store) (table : List EligRecord)
    (offerId offerType merchantId : String) (o : OfferDescriptor) (now : Nat) :
    List EligRecord :=
  table.filter (fun x =>
    !((diffToDelete s table offerId offerType merchantId o now).map
        (fun r => r.id)).contains x.id)

/-- The table after the transaction's delete and update steps. -/
def afterUpdateT (s : Store) (table : List EligRecord)
    (offerId offerType merchantId : String) (o : OfferDescriptor) (now : Nat) :
    List EligRecord :=
  (afterDeleteT s table offerId offerType merchantId o now).map
    (updApply (diffToUpdate s table offerId offerType merchantId o now))

/-- The committed table of a delta run. -/
def diffFinal (s : Store) (table : List EligRecord)
    (offerId offerType merchantId : String) (o : OfferDescriptor) (now : Nat) :
    List EligRecord :=
  insertSeq (afterUpdateT s table offerId offerType merchantId o now)
    (diffToCreate s table offerId offerType merchantId o now) now

/-- The hypotheses under which `computeEligibility` takes the delta branch on a
well-formed table (the offer is found, active, not soft-deleted, the merchant
has an active outlet, and the table's primary keys are duplicate-free). -/
def DeltaHyps (s : Store) (table : List EligRecord)
    (offerId offerType merchantId : String) (o : OfferDescriptor) : Prop :=
  getOfferDetails s offerId offerType = some o ∧ o.isActive = true ∧
  o.deletedAt = none ∧ (activeOutlets s merchantId).isEmpty = false ∧
  (table.map (fun r => r.id)).Nodup

/-- Membership in the stored rows of an offer. -/
theorem mem_existingFor {table : List EligRecord} {offerId offerType : String}
    {r : EligRecord} :
    r ∈ existingFor table offerId offerType ↔
      r ∈ table ∧ r.offerId = offerId ∧ r.offerType = offerType := by
  simp [existingFor, List.mem_filter, and_assoc]

/-- Every desired record carries the offer's identity, `isEligible = true`, the
desired window and `lastUpdated = now`. -/
theorem desired_fields {s : Store} {offerId offerType merchantId : String}
    {o : OfferDescriptor} {now : Nat} {n : NewRecord}
    (hn : n ∈ desiredRecords s offerId offerType merchantId o now) :
    n.offerType = offerType ∧ n.offerId = offerId ∧ n.merchantId = merchantId ∧
    n.isEligible = true ∧ n.validFrom = winFrom o now ∧
    n.validUntil = winUntil o now ∧ n.lastUpdated = now := by
  obtain ⟨ct, _, out, _, rfl⟩ := mem_desiredRecords.mp hn
  exact ⟨rfl, rfl, rfl, rfl, rfl, rfl, rfl⟩

/-- Under the delta hypotheses, `computePlan` returns the three diff buckets. -/
theorem computePlan_delta {s : Store} {table : List EligRecord}
    {offerId offerType merchantId : String} {o : OfferDescriptor} {now : Nat}
    (h : DeltaHyps s table offerId offerType merchantId o) :
    computePlan s table offerId offerType merchantId now =
      .delta (diffToCreate s table offerId offerType merchantId o now)
        (diffToUpdate s table offerId offerType merchantId o now)
        (diffToDelete s table offerId offerType merchantId o now) := by
  obtain ⟨hoff, hact, hdel, hout, -⟩ := h
  simp [computePlan, diffToCreate, diffToUpdate, diffToDelete, diffNewKeys,
    hoff, hact, hdel, hout]

/-- Ids of a `filterMap` whose outputs inherit the input's id form a sublist of
the input ids. -/
theorem ids_sublist_of_filterMap {α β : Type} (idf : α → Nat) (uf : β → Nat)
    (f : α → Option β) (hf : ∀ x y, f x = some y → uf y = idf x) :
    ∀ l : List α, ((l.filterMap f).map uf).Sublist (l.map idf) := by
  intro l
  induction l with
  | nil => simp
  | cons x xs ih =>
    rw [List.filterMap_cons]
    cases hfx : f x with
    | none =>
      simp only [List.map_cons]
      exact ih.trans (List.sublist_cons_self _ _)
    | some y =>
      simp only [List.map_cons]
      rw [hf x y hfx]
      exact ih.cons₂ _

/-- Structure of a `toUpdate` entry: it borrows the id of an existing row whose
key is desired, and the window of the desired record found for that row. -/
theorem mem_toUpdateList {existing : List EligRecord} {newRecs : List NewRecord}
    {newKeys : List String} {now : Nat} {v : UpdateRecord}
    (hv : v ∈ toUpdateList existing newRecs newKeys now) :
    ∃ e ∈ existing, ∃ n ∈ newRecs,
      n.userId = e.userId ∧ n.outletId = e.outletId ∧
      v = { id := e.id, validFrom := n.validFrom, validUntil := n.validUntil
            lastUpdated := now } := by
  obtain ⟨e, he, hfe⟩ := List.mem_filterMap.mp hv
  refine ⟨e, he, ?_⟩
  by_cases hk : newKeys.contains (recKey e.userId e.outletId) = true
  · rw [if_pos hk] at hfe
    cases hfind : newRecs.find? (fun n => n.userId == e.userId && n.outletId == e.outletId) with
    | none =>
      rw [hfind] at hfe
      dsimp only at hfe
      cases hfe
    | some n =>
      rw [hfind] at hfe
      dsimp only at hfe
      have hn := List.mem_of_find?_eq_some hfind
      have hpred := List.find?_some hfind
      simp only [Bool.and_eq_true, beq_iff_eq] at hpred
      by_cases hw : (e.validFrom != n.validFrom || e.validUntil != n.validUntil) = true
      · rw [if_pos hw] at hfe
        exact ⟨n, hn, hpred.1, hpred.2, (Option.some.injEq _ _ ▸ hfe.symm :)⟩
      · rw [if_neg hw] at hfe
        cases hfe
  · rw [if_neg hk] at hfe
    cases hfe

/-- When an existing row's components match some desired record and its window
is not the desired one, the diff emits an update entry for its id. -/
theorem toUpdateList_covers {existing : List EligRecord} {newRecs : List NewRecord}
    {newKeys : List String} {now : Nat} {e : EligRecord}
    (he : e ∈ existing)
    (hk : newKeys.contains (recKey e.userId e.outletId) = true)
    (hfind : ∃ n ∈ newRecs, (fun n => n.userId == e.userId && n.outletId == e.outletId) n = true)
    (hw : ∀ n ∈ newRecs, n.userId = e.userId → n.outletId = e.outletId →
      ¬(e.validFrom = n.validFrom ∧ e.validUntil = n.validUntil)) :
    ∃ v ∈ toUpdateList existing newRecs newKeys now, v.id = e.id := by
  obtain ⟨n0, hn0, hp0⟩ := hfind
  obtain ⟨n, hfindn⟩ : ∃ n, newRecs.find?
      (fun n => n.userId == e.userId && n.outletId == e.outletId) = some n := by
    cases hf : newRecs.find? (fun n => n.userId == e.userId && n.outletId == e.outletId) with
    | none =>
      rw [List.find?_eq_none] at hf
      exact absurd hp0 (hf n0 hn0)
    | some n => exact ⟨n, rfl⟩
  have hn := List.mem_of_find?_eq_some hfindn
  have hpred := List.find?_some hfindn
  simp only [Bool.and_eq_true, beq_iff_eq] at hpred
  have hwn := hw n hn hpred.1 hpred.2
  have hcond : (e.validFrom != n.validFrom || e.validUntil != n.validUntil) = true := by
    rw [Bool.or_eq_true, bne_iff_ne, bne_iff_ne]
    by_cases h1 : e.validFrom = n.validFrom
    · exact Or.inr (fun h2 => hwn ⟨h1, h2⟩)
    · exact Or.inl h1
  refine ⟨{ id := e.id, validFrom := n.validFrom, validUntil := n.validUntil
            lastUpdated := now }, ?_, rfl⟩
  apply List.mem_filterMap.mpr
  refine ⟨e, he, ?_⟩
  rw [if_pos hk, hfindn]
  dsimp only
  rw [if_pos hcond]

/-- Every update entry's window is the desired one, when every desired record
has the desired window. -/
theorem toUpdateList_window {existing : List EligRecord} {newRecs : List NewRecord}
    {newKeys : List String} {now w1 w2 : Nat}
    (hwin : ∀ n ∈ newRecs, n.validFrom = w1 ∧ n.validUntil = w2)
    {v : UpdateRecord} (hv : v ∈ toUpdateList existing newRecs newKeys now) :
    v.validFrom = w1 ∧ v.validUntil = w2 := by
  obtain ⟨e, -, n, hn, -, -, rfl⟩ := mem_toUpdateList hv
  exact ⟨(hwin n hn).1, (hwin n hn).2⟩

/-- Rows present before an insert batch survive it. -/
theorem insertSeq_mono (now : Nat) :
    ∀ (rows : List NewRecord) (t : List EligRecord) (x : EligRecord),
      x ∈ t → x ∈ insertSeq t rows now := by
  intro rows
  induction rows with
  | nil => intro t x hx; exact hx
  | cons n rest ih =>
    intro t x hx
    unfold insertSeq
    by_cases h : t.any (fun r => rowKey r == newRowKey n) = true
    · rw [if_pos h]; exact ih t x hx
    · rw [if_neg h]; exact ih _ x (List.mem_append_left _ hx)

/-- Rows of the inserted table come from the base table or the batch. -/
theorem insertSeq_mem_of (now : Nat) :
    ∀ (rows : List NewRecord) (t : List EligRecord) (x : EligRecord),
      x ∈ insertSeq t rows now →
      x ∈ t ∨ ∃ n ∈ rows, ∃ fid, x = mkRow n fid now := by
  intro rows
  induction rows with
  | nil => intro t x hx; exact Or.inl hx
  | cons n rest ih =>
    intro t x hx
    unfold insertSeq at hx
    by_cases h : t.any (fun r => rowKey r == newRowKey n) = true
    · rw [if_pos h] at hx
      rcases ih t x hx with h1 | ⟨m, hm, fid, rfl⟩
      · exact Or.inl h1
      · exact Or.inr ⟨m, List.mem_cons_of_mem _ hm, fid, rfl⟩
    · rw [if_neg h] at hx
      rcases ih _ x hx with h1 | ⟨m, hm, fid, rfl⟩
      · rcases List.mem_append.mp h1 with h2 | h2
        · exact Or.inl h2
        · simp only [List.mem_singleton] at h2
          exact Or.inr ⟨n, List.mem_cons_self _ _, freshIdFor t, h2⟩
      · exact Or.inr ⟨m, List.mem_cons_of_mem _ hm, fid, rfl⟩

/-- After the batch, every batch row's unique key is present in the table. -/
theorem insertSeq_covers (now : Nat) :
    ∀ (rows : List NewRecord) (t : List EligRecord),
      ∀ n ∈ rows, ∃ x ∈ insertSeq t rows now, rowKey x = newRowKey n := by
  intro rows
  induction rows with
  | nil => intro t n hn; cases hn
  | cons m rest ih =>
    intro t n hn
    unfold insertSeq
    by_cases h : t.any (fun r => rowKey r == newRowKey m) = true
    · rw [if_pos h]
      rcases List.mem_cons.mp hn with rfl | hn2
      · obtain ⟨x, hx, hkey⟩ := List.any_eq_true.mp h
        exact ⟨x, insertSeq_mono now rest t x hx, beq_iff_eq.mp hkey⟩
      · exact ih t n hn2
    · rw [if_neg h]
      rcases List.mem_cons.mp hn with rfl | hn2
      · refine ⟨mkRow n (freshIdFor t) now, ?_, rfl⟩
        exact insertSeq_mono now rest _ _ (List.mem_append_right _ (List.mem_singleton.mpr rfl))
      · exact ih _ n hn2

/-- Running the (possibly absent) delete statement filters the deleted ids. -/
theorem runTxList_deleteSeg (now : Nat) (d : List EligRecord) (t : List EligRecord) :
    runTxList now (if d.isEmpty then [] else [.deleteByIds (d.map (fun r => r.id))]) t =
      .ok (t.filter (fun x => !(d.map (fun r => r.id)).contains x.id)) := by
  cases d with
  | nil =>
    simp only [List.isEmpty_nil, if_pos, runTxList]
    rw [List.filter_eq_self.mpr]
    intro a _
    rfl
  | cons r rest =>
    simp only [List.isEmpty_cons, Bool.false_eq_true, if_neg, runTxList, runStmt]

/-- Running the (possibly absent) chunked insert statements inserts the whole
batch sequentially. -/
theorem runTxList_insertSeg (now : Nat) (c : List NewRecord) (t : List EligRecord) :
    runTxList now (if c.isEmpty then [] else (chunksOf 999 c).map .insertMany) t =
      .ok (insertSeq t c now) := by
  cases c with
  | nil => simp [runTxList, insertSeq]
  | cons n rest =>
    simp only [List.isEmpty_cons, Bool.false_eq_true, if_neg]
    exact runTxList_inserts now (n :: rest) t

/-- Under the delta hypotheses the whole transaction succeeds and commits
`diffFinal`. -/
theorem computeEligibility_eq_diffFinal {s : Store} {table : List EligRecord}
    {offerId offerType merchantId : String} {o : OfferDescriptor} {now : Nat}
    (h : DeltaHyps s table offerId offerType merchantId o) :
    computeEligibility s table offerId offerType merchantId now =
      diffFinal s table offerId offerType merchantId o now := by
  have hids := h.2.2.2.2
  have hpres : ∀ v ∈ diffToUpdate s table offerId offerType merchantId o now,
      ((afterDeleteT s table offerId offerType merchantId o now).any
        (fun x => x.id == v.id)) = true := by
    intro v hv
    obtain ⟨e, he, n, hn, hnu, hno, rfl⟩ := mem_toUpdateList hv
    obtain ⟨het, heid, hety⟩ := mem_existingFor.mp he
    have hkey : (diffNewKeys s offerId offerType merchantId o now).contains
        (recKey e.userId e.outletId) = true := by
      apply List.elem_iff.mpr
      apply List.mem_map.mpr
      exact ⟨n, hn, by rw [hnu, hno]⟩
    have hmem : e ∈ afterDeleteT s table offerId offerType merchantId o now := by
      unfold afterDeleteT
      apply List.mem_filter.mpr
      refine ⟨het, ?_⟩
      simp only [Bool.not_eq_eq_eq_not, Bool.not_true, Bool.not_eq_true]
      cases hcont : ((diffToDelete s table offerId offerType merchantId o now).map
          (fun r => r.id)).contains e.id with
      | false => rfl
      | true =>
        exfalso
        obtain ⟨q, hq, hqid⟩ := List.mem_map.mp (List.elem_iff.mp hcont)
        have hqmem := (List.mem_filter.mp hq).1
        have hqdel := (List.mem_filter.mp hq).2
        have hqtab := (mem_existingFor.mp hqmem).1
        have : q = e := List.inj_on_of_nodup_map hids hqtab het hqid
        subst this
        rw [hkey] at hqdel
        simp at hqdel
    apply List.any_eq_true.mpr
    exact ⟨e, hmem, by simp⟩
  have hnodupU : ((diffToUpdate s table offerId offerType merchantId o now).map
      (fun v => v.id)).Nodup := by
    have hsub : ((diffToUpdate s table offerId offerType merchantId o now).map
        (fun v => v.id)).Sublist ((existingFor table offerId offerType).map
          (fun e => e.id)) := by
      apply ids_sublist_of_filterMap
      intro e v hf
      by_cases hk : (diffNewKeys s offerId offerType merchantId o now).contains
          (recKey e.userId e.outletId) = true
      · rw [if_pos hk] at hf
        cases hfind : (desiredRecords s offerId offerType merchantId o now).find?
            (fun n => n.userId == e.userId && n.outletId == e.outletId) with
        | none =>
          rw [hfind] at hf
          dsimp only at hf
          cases hf
        | some n =>
          rw [hfind] at hf
          dsimp only at hf
          by_cases hw : (e.validFrom != n.validFrom || e.validUntil != n.validUntil) = true
          · rw [if_pos hw] at hf
            cases hf
            rfl
          · rw [if_neg hw] at hf
            cases hf
      · rw [if_neg hk] at hf
        cases hf
    have hexnd : ((existingFor table offerId offerType).map (fun e => e.id)).Nodup := by
      have hsub2 : (existingFor table offerId offerType).Sublist table :=
        List.filter_sublist table
      exact List.Nodup.sublist (hsub2.map (fun e => e.id)) hids
    exact List.Nodup.sublist hsub hexnd
  unfold computeEligibility
  rw [computePlan_delta h]
  dsimp only
  unfold txStatements
  rw [runTxList_append, runTxList_append, runTxList_deleteSeg]
  dsimp only
  rw [show (List.filter (fun x =>
      !(List.map (fun r => r.id)
          (diffToDelete s table offerId offerType merchantId o now)).contains x.id) table) =
    afterDeleteT s table offerId offerType merchantId o now from rfl]
  rw [updateSeg_flatten,
    runTxList_updates now (diffToUpdate s table offerId offerType merchantId o now)
      (afterDeleteT s table offerId offerType merchantId o now) hpres hnodupU]
  dsimp only
  rw [runTxList_insertSeg]
  rfl

/-- `updApply` only changes the validity window and `lastUpdated`. -/
theorem updApply_fields (u : List UpdateRecord) (x : EligRecord) :
    (updApply u x).id = x.id ∧ (updApply u x).userId = x.userId ∧
    (updApply u x).outletId = x.outletId ∧ (updApply u x).offerType = x.offerType ∧
    (updApply u x).offerId = x.offerId ∧ (updApply u x).merchantId = x.merchantId ∧
    (updApply u x).isEligible = x.isEligible ∧ (updApply u x).createdAt = x.createdAt := by
  unfold updApply
  cases u.find? (fun r => r.id == x.id) with
  | none => exact ⟨rfl, rfl, rfl, rfl, rfl, rfl, rfl, rfl⟩
  | some q => exact ⟨rfl, rfl, rfl, rfl, rfl, rfl, rfl, rfl⟩

/-- A row targeted by no update entry is unchanged. -/
theorem updApply_of_find?_none {u : List UpdateRecord} {x : EligRecord}
    (h : u.find? (fun r => r.id == x.id) = none) : updApply u x = x := by
  unfold updApply
  rw [h]

/-- Membership in the post-delete table: surviving rows are the stored rows
that are either for another offer or carry a still-desired key. -/
theorem mem_afterDeleteT {s : Store} {table : List EligRecord}
    {offerId offerType merchantId : String} {o : OfferDescriptor} {now : Nat}
    (h : DeltaHyps s table offerId offerType merchantId o) {x : EligRecord} :
    x ∈ afterDeleteT s table offerId offerType merchantId o now ↔
      x ∈ table ∧ (x.offerId = offerId → x.offerType = offerType →
        (diffNewKeys s offerId offerType merchantId o now).contains
          (recKey x.userId x.outletId) = true) := by
  have hids := h.2.2.2.2
  unfold afterDeleteT
  simp only [List.mem_filter, Bool.not_eq_eq_eq_not, Bool.not_true, Bool.not_eq_true]
  constructor
  · rintro ⟨hx, hcond⟩
    refine ⟨hx, fun hid hty => ?_⟩
    cases hk : (diffNewKeys s offerId offerType merchantId o now).contains
        (recKey x.userId x.outletId) with
    | true => rfl
    | false =>
      exfalso
      have hxD : x ∈ diffToDelete s table offerId offerType merchantId o now := by
        unfold diffToDelete
        apply List.mem_filter.mpr
        exact ⟨mem_existingFor.mpr ⟨hx, hid, hty⟩, by rw [hk]; rfl⟩
      have hmem : ((diffToDelete s table offerId offerType merchantId o now).map
          (fun r => r.id)).contains x.id = true :=
        List.elem_iff.mpr (List.mem_map.mpr ⟨x, hxD, rfl⟩)
      rw [hmem] at hcond
      cases hcond
  · rintro ⟨hx, himp⟩
    refine ⟨hx, ?_⟩
    cases hcont : ((diffToDelete s table offerId offerType merchantId o now).map
        (fun r => r.id)).contains x.id with
    | false => rfl
    | true =>
      exfalso
      obtain ⟨q, hq, hqid⟩ := List.mem_map.mp (List.elem_iff.mp hcont)
      have hqex := (List.mem_filter.mp hq).1
      have hqk := (List.mem_filter.mp hq).2
      obtain ⟨hqt, hqid2, hqty⟩ := mem_existingFor.mp hqex
      have hqe : q = x := List.inj_on_of_nodup_map hids hqt hx hqid
      subst hqe
      rw [himp hqid2 hqty] at hqk
      cases hqk

/-- A row of this offer kept by the delete step ends the update step with the
desired window, provided some desired record shares its components. -/
theorem updApply_window {s : Store} {table : List EligRecord}
    {offerId offerType merchantId : String} {o : OfferDescriptor} {now : Nat}
    (h : DeltaHyps s table offerId offerType merchantId o) {x : EligRecord}
    (hx : x ∈ afterDeleteT s table offerId offerType merchantId o now)
    (hid : x.offerId = offerId) (hty : x.offerType = offerType)
    (hcomp : ∃ n ∈ desiredRecords s offerId offerType merchantId o now,
      n.userId = x.userId ∧ n.outletId = x.outletId) :
    (updApply (diffToUpdate s table offerId offerType merchantId o now) x).validFrom =
        winFrom o now ∧
      (updApply (diffToUpdate s table offerId offerType merchantId o now) x).validUntil =
        winUntil o now := by
  have hwin : ∀ n ∈ desiredRecords s offerId offerType merchantId o now,
      n.validFrom = winFrom o now ∧ n.validUntil = winUntil o now := by
    intro n hn
    exact ⟨(desired_fields hn).2.2.2.2.1, (desired_fields hn).2.2.2.2.2.1⟩
  cases hfind : (diffToUpdate s table offerId offerType merchantId o now).find?
      (fun r => r.id == x.id) with
  | some q =>
    have hq := List.mem_of_find?_eq_some hfind
    have hqw := toUpdateList_window hwin hq
    unfold updApply
    rw [hfind]
    exact hqw
  | none =>
    rw [updApply_of_find?_none hfind]
    by_cases hxw : x.validFrom = winFrom o now ∧ x.validUntil = winUntil o now
    · exact hxw
    · exfalso
      obtain ⟨n0, hn0, hn0u, hn0o⟩ := hcomp
      have hxt := (mem_afterDeleteT h).mp hx
      have hkey := hxt.2 hid hty
      obtain ⟨v, hv, hvid⟩ := toUpdateList_covers
        (mem_existingFor.mpr ⟨hxt.1, hid, hty⟩) hkey
        ⟨n0, hn0, by simp [hn0u, hn0o]⟩
        (fun n hn hnu hno hbad => hxw (by
          rw [hbad.1, hbad.2]
          exact ⟨(hwin n hn).1, (hwin n hn).2⟩))
      rw [List.find?_eq_none] at hfind
      exact hfind v hv (by simp [hvid])

/-- `toCreate` rows are desired rows. -/
theorem mem_diffToCreate {s : Store} {table : List EligRecord}
    {offerId offerType merchantId : String} {o : OfferDescriptor} {now : Nat}
    {n : NewRecord}
    (hn : n ∈ diffToCreate s table offerId offerType merchantId o now) :
    n ∈ desiredRecords s offerId offerType merchantId o now :=
  (List.mem_filter.mp hn).1

/-- Rows of other offers pass through a delta run untouched. -/
theorem diffFinal_nonmatching {s : Store} {table : List EligRecord}
    {offerId offerType merchantId : String} {o : OfferDescriptor} {now : Nat}
    (h : DeltaHyps s table offerId offerType merchantId o) {r : EligRecord}
    (hnm : ¬(r.offerId = offerId ∧ r.offerType = offerType)) :
    r ∈ diffFinal s table offerId offerType merchantId o now ↔ r ∈ table := by
  have hids := h.2.2.2.2
  have hfindnone : ∀ x ∈ table, ¬(x.offerId = offerId ∧ x.offerType = offerType) →
      (diffToUpdate s table offerId offerType merchantId o now).find?
        (fun q => q.id == x.id) = none := by
    intro x hx hxnm
    rw [List.find?_eq_none]
    intro q hq hbad
    obtain ⟨e, he, n, -, -, -, rfl⟩ := mem_toUpdateList hq
    obtain ⟨het, heid, hety⟩ := mem_existingFor.mp he
    have : e = x := List.inj_on_of_nodup_map hids het hx (beq_iff_eq.mp hbad)
    subst this
    exact hxnm ⟨heid, hety⟩
  constructor
  · intro hr
    rcases insertSeq_mem_of now _ _ _ hr with hAU | ⟨n, hn, fid, rfl⟩
    · obtain ⟨x, hxAD, rfl⟩ := List.mem_map.mp hAU
      have hxt := ((mem_afterDeleteT h).mp hxAD).1
      have hfields := updApply_fields
        (diffToUpdate s table offerId offerType merchantId o now) x
      have hxnm : ¬(x.offerId = offerId ∧ x.offerType = offerType) := by
        intro hxm
        exact hnm ⟨hfields.2.2.2.2.1 ▸ hxm.1, hfields.2.2.2.1 ▸ hxm.2⟩
      rw [updApply_of_find?_none (hfindnone x hxt hxnm)]
      exact hxt
    · exfalso
      have hd := desired_fields (mem_diffToCreate hn)
      exact hnm ⟨by simp [mkRow, hd.2.1], by simp [mkRow, hd.1]⟩
  · intro hr
    have hAD : r ∈ afterDeleteT s table offerId offerType merchantId o now :=
      (mem_afterDeleteT h).mpr ⟨hr, fun hid hty => absurd ⟨hid, hty⟩ hnm⟩
    have hAU : r ∈ afterUpdateT s table offerId offerType merchantId o now := by
      unfold afterUpdateT
      apply List.mem_map.mpr
      exact ⟨r, hAD, updApply_of_find?_none (hfindnone r hr hnm)⟩
    exact insertSeq_mono now _ _ _ hAU

/-- Every committed row of this offer carries a desired key. -/
theorem diffFinal_matching_key {s : Store} {table : List EligRecord}
    {offerId offerType merchantId : String} {o : OfferDescriptor} {now : Nat}
    (h : DeltaHyps s table offerId offerType merchantId o) {r : EligRecord}
    (hr : r ∈ diffFinal s table offerId offerType merchantId o now)
    (hid : r.offerId = offerId) (hty : r.offerType = offerType) :
    (diffNewKeys s offerId offerType merchantId o now).contains
      (recKey r.userId r.outletId) = true := by
  rcases insertSeq_mem_of now _ _ _ hr with hAU | ⟨n, hn, fid, rfl⟩
  · obtain ⟨x, hxAD, rfl⟩ := List.mem_map.mp hAU
    have hfields := updApply_fields
      (diffToUpdate s table offerId offerType merchantId o now) x
    have hxmem := (mem_afterDeleteT h).mp hxAD
    have := hxmem.2 (hfields.2.2.2.2.1 ▸ hid) (hfields.2.2.2.1 ▸ hty)
    rw [hfields.2.1, hfields.2.2.1]
    exact this
  · apply List.elem_iff.mpr
    apply List.mem_map.mpr
    exact ⟨n, mem_diffToCreate hn, by simp [mkRow, recKey]⟩

/-- Every committed row of this offer whose components are desired carries the
desired validity window. -/
theorem diffFinal_matching_window {s : Store} {table : List EligRecord}
    {offerId offerType merchantId : String} {o : OfferDescriptor} {now : Nat}
    (h : DeltaHyps s table offerId offerType merchantId o) {r : EligRecord}
    (hr : r ∈ diffFinal s table offerId offerType merchantId o now)
    (hid : r.offerId = offerId) (hty : r.offerType = offerType)
    (hcomp : ∃ n ∈ desiredRecords s offerId offerType merchantId o now,
      n.userId = r.userId ∧ n.outletId = r.outletId) :
    r.validFrom = winFrom o now ∧ r.validUntil = winUntil o now := by
  rcases insertSeq_mem_of now _ _ _ hr with hAU | ⟨n, hn, fid, rfl⟩
  · obtain ⟨x, hxAD, rfl⟩ := List.mem_map.mp hAU
    have hfields := updApply_fields
      (diffToUpdate s table offerId offerType merchantId o now) x
    apply updApply_window h hxAD
      (hfields.2.2.2.2.1 ▸ hid) (hfields.2.2.2.1 ▸ hty)
    obtain ⟨n, hn, hnu, hno⟩ := hcomp
    exact ⟨n, hn, hfields.2.1 ▸ hnu, hfields.2.2.1 ▸ hno⟩
  · have hd := desired_fields (mem_diffToCreate hn)
    exact ⟨by simp [mkRow, hd.2.2.2.2.1], by simp [mkRow, hd.2.2.2.2.2.1]⟩

/-- Every desired key is carried by some committed row of this offer. -/
theorem diffFinal_covers {s : Store} {table : List EligRecord}
    {offerId offerType merchantId : String} {o : OfferDescriptor} {now : Nat}
    (h : DeltaHyps s table offerId offerType merchantId o) {k : String}
    (hk : k ∈ diffNewKeys s offerId offerType merchantId o now) :
    ∃ r ∈ diffFinal s table offerId offerType merchantId o now,
      r.offerId = offerId ∧ r.offerType = offerType ∧
      recKey r.userId r.outletId = k := by
  obtain ⟨n, hn, rfl⟩ := List.mem_map.mp hk
  cases hex : ((existingFor table offerId offerType).map
      (fun e => recKey e.userId e.outletId)).contains (recKey n.userId n.outletId) with
  | true =>
    obtain ⟨e, he, hek⟩ := List.mem_map.mp (List.elem_iff.mp hex)
    obtain ⟨het, heid, hety⟩ := mem_existingFor.mp he
    have hkeys : (diffNewKeys s offerId offerType merchantId o now).contains
        (recKey e.userId e.outletId) = true := by
      apply List.elem_iff.mpr
      rw [hek]
      exact List.mem_map.mpr ⟨n, hn, rfl⟩
    have hAD : e ∈ afterDeleteT s table offerId offerType merchantId o now :=
      (mem_afterDeleteT h).mpr ⟨het, fun _ _ => hkeys⟩
    refine ⟨updApply (diffToUpdate s table offerId offerType merchantId o now) e,
      insertSeq_mono now _ _ _ (List.mem_map.mpr ⟨e, hAD, rfl⟩), ?_, ?_, ?_⟩
    · exact (updApply_fields _ e).2.2.2.2.1 ▸ heid
    · exact (updApply_fields _ e).2.2.2.1 ▸ hety
    · rw [(updApply_fields _ e).2.1, (updApply_fields _ e).2.2.1]
      exact hek
  | false =>
    have hnC : n ∈ diffToCreate s table offerId offerType merchantId o now := by
      unfold diffToCreate
      apply List.mem_filter.mpr
      exact ⟨hn, by rw [hex]; rfl⟩
    obtain ⟨x, hx, hxk⟩ := insertSeq_covers now _ _ n hnC
    have hd := desired_fields hn
    unfold rowKey newRowKey at hxk
    have h1 : x.userId = n.userId := congrArg Prod.fst hxk
    have h2 : x.outletId = n.outletId := congrArg Prod.fst (congrArg Prod.snd hxk)
    have h3 : x.offerType = n.offerType :=
      congrArg Prod.fst (congrArg Prod.snd (congrArg Prod.snd hxk))
    have h4 : x.offerId = n.offerId :=
      congrArg Prod.snd (congrArg Prod.snd (congrArg Prod.snd hxk))
    exact ⟨x, hx, h4.trans hd.2.1, h3.trans hd.1, by rw [recKey, h1, h2]; rfl⟩

/-- Committed rows either descend from stored rows (window possibly updated) or
from desired records. -/
theorem diffFinal_provenance {s : Store} {table : List EligRecord}
    {offerId offerType merchantId : String} {o : OfferDescriptor} {now : Nat}
    (h : DeltaHyps s table offerId offerType merchantId o) {r : EligRecord}
    (hr : r ∈ diffFinal s table offerId offerType merchantId o now) :
    (∃ x ∈ table, x.userId = r.userId ∧ x.outletId = r.outletId ∧
      x.offerType = r.offerType ∧ x.offerId = r.offerId ∧
      x.merchantId = r.merchantId ∧ x.isEligible = r.isEligible) ∨
    (∃ n ∈ desiredRecords s offerId offerType merchantId o now, ∃ fid,
      r = mkRow n fid now) := by
  rcases insertSeq_mem_of now _ _ _ hr with hAU | ⟨n, hn, fid, rfl⟩
  · obtain ⟨x, hxAD, rfl⟩ := List.mem_map.mp hAU
    have hf := updApply_fields (diffToUpdate s table offerId offerType merchantId o now) x
    exact Or.inl ⟨x, ((mem_afterDeleteT h).mp hxAD).1, hf.2.1.symm, hf.2.2.1.symm,
      hf.2.2.2.1.symm, hf.2.2.2.2.1.symm, hf.2.2.2.2.2.1.symm, hf.2.2.2.2.2.2.1.symm⟩
  · exact Or.inr ⟨n, mem_diffToCreate hn, fid, rfl⟩

/-- Under the four branch conditions alone (no table well-formedness needed),
`computePlan` returns the three diff buckets. -/
theorem computePlan_delta_of_conds {s : Store} {table : List EligRecord}
    {offerId offerType merchantId : String} {o : OfferDescriptor} {now : Nat}
    (hoff : getOfferDetails s offerId offerType = some o) (hact : o.isActive = true)
    (hdel : o.deletedAt = none)
    (hout : (activeOutlets s merchantId).isEmpty = false) :
    computePlan s table offerId offerType merchantId now =
      .delta (diffToCreate s table offerId offerType merchantId o now)
        (diffToUpdate s table offerId offerType merchantId o now)
        (diffToDelete s table offerId offerType merchantId o now) := by
  simp [computePlan, diffToCreate, diffToUpdate, diffToDelete, diffNewKeys,
    hoff, hact, hdel, hout]

/-- The desired keys do not depend on the clock. -/
theorem diffNewKeys_now_indep (s : Store) (offerId offerType merchantId : String)
    (o : OfferDescriptor) (now₁ now₂ : Nat) :
    diffNewKeys s offerId offerType merchantId o now₂ =
      diffNewKeys s offerId offerType merchantId o now₁ := by
  unfold diffNewKeys desiredRecords
  rw [List.map_flatMap, List.map_flatMap]
  congr 1
  funext ct
  rw [List.map_map, List.map_map]
  rfl

/-! ## C2 — second run of the diff on an unchanged store -/

/-- C2 (amended): with the store unchanged and duplicate-free primary keys, a
second `computeEligibility` run produces empty `toCreate`/`toDelete` buckets
and leaves the table unchanged; `toUpdate` is also empty provided the desired
validity window is the same across the two runs (true whenever the offer
stores both dates, or the clock has not advanced; for defaulted dates the
window tracks the clock and the second run emits updates — see the
counterexample). -/
theorem C2_second_run_empty_delta (s : Store) (table : List EligRecord)
    (offerId offerType merchantId : String) (now₁ now₂ : Nat)
    (hids : (table.map (fun r => r.id)).Nodup)
    (hwin : ∀ o', getOfferDetails s offerId offerType = some o' →
      winFrom o' now₂ = winFrom o' now₁ ∧ winUntil o' now₂ = winUntil o' now₁) :
    (∀ c u d,
      computePlan s (computeEligibility s table offerId offerType merchantId now₁)
        offerId offerType merchantId now₂ = .delta c u d →
      c = [] ∧ u = [] ∧ d = []) ∧
    computeEligibility s
      (computeEligibility s table offerId offerType merchantId now₁)
      offerId offerType merchantId now₂ =
    computeEligibility s table offerId offerType merchantId now₁ := by
  by_cases htomb : computePlan s table offerId offerType merchantId now₁ = .tombstone
  · -- tombstone branch: the second run is a tombstone over an already-empty scope
    have hconds := (computePlan_tombstone_iff s table offerId offerType merchantId now₁).mp htomb
    have h1 : computeEligibility s table offerId offerType merchantId now₁ =
        table.filter (fun r => !(r.offerId == offerId && r.offerType == offerType)) := by
      unfold computeEligibility
      rw [htomb]
    have htomb2 : computePlan s
        (computeEligibility s table offerId offerType merchantId now₁)
        offerId offerType merchantId now₂ = .tombstone :=
      (computePlan_tombstone_iff s _ offerId offerType merchantId now₂).mpr hconds
    have hrun : ∀ (t : List EligRecord) (now' : Nat),
        computePlan s t offerId offerType merchantId now' = .tombstone →
        computeEligibility s t offerId offerType merchantId now' =
          t.filter (fun r => !(r.offerId == offerId && r.offerType == offerType)) := by
      intro t now' hpl
      unfold computeEligibility
      rw [hpl]
    constructor
    · intro c u d hdelta
      rw [htomb2] at hdelta
      cases hdelta
    · rw [hrun _ now₂ htomb2]
      apply List.filter_eq_self.mpr
      intro a ha
      rw [h1] at ha
      exact (List.mem_filter.mp ha).2
  · -- delta branch
    rw [computePlan_tombstone_iff] at htomb
    push_neg at htomb
    obtain ⟨hnone, hsome, houtne⟩ := htomb
    obtain ⟨o, hoff⟩ : ∃ o, getOfferDetails s offerId offerType = some o := by
      cases hgd : getOfferDetails s offerId offerType with
      | none => exact absurd hgd hnone
      | some o => exact ⟨o, rfl⟩
    have hcond := hsome o hoff
    have hact : o.isActive = true := by
      cases hia : o.isActive with
      | true => rfl
      | false => exact absurd hia hcond.1
    have hdel : o.deletedAt = none := hcond.2
    have hout : (activeOutlets s merchantId).isEmpty = false := by
      cases hie : (activeOutlets s merchantId).isEmpty with
      | false => rfl
      | true => exact absurd (List.isEmpty_iff.mp hie) houtne
    have hDH : DeltaHyps s table offerId offerType merchantId o :=
      ⟨hoff, hact, hdel, hout, hids⟩
    have hF : computeEligibility s table offerId offerType merchantId now₁ =
        diffFinal s table offerId offerType merchantId o now₁ :=
      computeEligibility_eq_diffFinal hDH
    obtain ⟨hw1, hw2⟩ := hwin o hoff
    have hkeys := diffNewKeys_now_indep s offerId offerType merchantId o now₁ now₂
    set F := diffFinal s table offerId offerType merchantId o now₁ with hFdef
    have hC : diffToCreate s F offerId offerType merchantId o now₂ = [] := by
      unfold diffToCreate
      rw [List.filter_eq_nil_iff]
      intro n hn
      have hk : recKey n.userId n.outletId ∈
          diffNewKeys s offerId offerType merchantId o now₁ := by
        rw [← hkeys]
        exact List.mem_map.mpr ⟨n, hn, rfl⟩
      obtain ⟨r, hrF, hrid, hrty, hrkey⟩ := diffFinal_covers hDH hk
      have hrex : r ∈ existingFor F offerId offerType :=
        mem_existingFor.mpr ⟨hrF, hrid, hrty⟩
      have hcont : ((existingFor F offerId offerType).map
          (fun e => recKey e.userId e.outletId)).contains
            (recKey n.userId n.outletId) = true :=
        List.elem_iff.mpr (List.mem_map.mpr ⟨r, hrex, hrkey⟩)
      rw [hcont]
      simp
    have hD : diffToDelete s F offerId offerType merchantId o now₂ = [] := by
      unfold diffToDelete
      rw [List.filter_eq_nil_iff]
      intro e he
      obtain ⟨heF, heid, hety⟩ := mem_existingFor.mp he
      have hk := diffFinal_matching_key hDH heF heid hety
      rw [← diffNewKeys_now_indep s offerId offerType merchantId o now₁ now₂] at hk
      rw [hk]
      simp
    have hU : diffToUpdate s F offerId offerType merchantId o now₂ = [] := by
      unfold diffToUpdate toUpdateList
      rw [List.filterMap_eq_nil_iff]
      intro e he
      obtain ⟨heF, heid, hety⟩ := mem_existingFor.mp he
      by_cases hk : (diffNewKeys s offerId offerType merchantId o now₂).contains
          (recKey e.userId e.outletId) = true
      · rw [if_pos hk]
        cases hfind : (desiredRecords s offerId offerType merchantId o now₂).find?
            (fun n => n.userId == e.userId && n.outletId == e.outletId) with
        | none => rfl
        | some n =>
          dsimp only
          have hnmem := List.mem_of_find?_eq_some hfind
          have hnpred := List.find?_some hfind
          simp only [Bool.and_eq_true, beq_iff_eq] at hnpred
          obtain ⟨ct, hct, out, houtm, rfl⟩ := mem_desiredRecords.mp hnmem
          have hn1 : ∃ n₁ ∈ desiredRecords s offerId offerType merchantId o now₁,
              n₁.userId = e.userId ∧ n₁.outletId = e.outletId := by
            refine ⟨_, mem_desiredRecords.mpr ⟨ct, hct, out, houtm, rfl⟩, ?_, ?_⟩
            · exact hnpred.1
            · exact hnpred.2
          have hew := diffFinal_matching_window hDH heF heid hety hn1
          have hvf : e.validFrom = o.startDate.getD now₂ := by
            rw [hew.1, ← hw1]
            rfl
          have hvu : e.validUntil = o.endDate.getD (now₂ + yearMs) := by
            rw [hew.2, ← hw2]
            rfl
          rw [if_neg]
          simp only [Bool.or_eq_true, bne_iff_ne, not_or, not_not]
          exact ⟨hvf, hvu⟩
      · rw [if_neg hk]
    have hplan2 : computePlan s F offerId offerType merchantId now₂ =
        .delta [] [] [] := by
      rw [computePlan_delta_of_conds hoff hact hdel hout, hC, hU, hD]
    constructor
    · intro c u d hdelta
      rw [hF] at hdelta
      rw [hplan2] at hdelta
      cases hdelta
      exact ⟨rfl, rfl, rfl⟩
    · rw [hF]
      show computeEligibility s F offerId offerType merchantId now₂ = F
      unfold computeEligibility
      rw [hplan2]
      dsimp only
      simp [txStatements, chunksOf, chunksOfAux, runTxList]

/-- C2 witness: the amended idempotence applied at a concrete store with an
unadvanced clock. -/
theorem C2_second_run_empty_delta_witness :
    (∀ c u d,
      computePlan undatedStore
        (computeEligibility undatedStore [] "c1" "Cashback" "m1" 5)
        "c1" "Cashback" "m1" 5 = .delta c u d →
      c = [] ∧ u = [] ∧ d = []) ∧
    computeEligibility undatedStore
      (computeEligibility undatedStore [] "c1" "Cashback" "m1" 5)
      "c1" "Cashback" "m1" 5 =
    computeEligibility undatedStore [] "c1" "Cashback" "m1" 5 :=
  C2_second_run_empty_delta undatedStore [] "c1" "Cashback" "m1" 5 5 (by decide)
    (fun o' h => by
      have hgd : getOfferDetails undatedStore "c1" "Cashback" =
          some { eligibleCustomerTypes := ["Gold"], startDate := none, endDate := none
                 isActive := true, deletedAt := none } := by decide
      rw [hgd] at h
      injection h with h2
      subst h2
      exact ⟨rfl, rfl⟩)

/-! ## C9 — old vs new `computeEligibility` -/

/-- The eligibility fact carried by a stored row, forgetting the
database-managed attributes (primary key, `lastUpdated`, `createdAt`). -/
structure FactRow where
  userId : String
  outletId : String
  offerType : String
  offerId : String
  merchantId : String
  isEligible : Bool
  validFrom : Nat
  validUntil : Nat
deriving DecidableEq, Repr

/-- The fact of a stored row. -/
def factOf (r : EligRecord) : FactRow :=
  ⟨r.userId, r.outletId, r.offerType, r.offerId, r.merchantId, r.isEligible,
    r.validFrom, r.validUntil⟩

/-- The fact of a record to insert. -/
def newFactOf (n : NewRecord) : FactRow :=
  ⟨n.userId, n.outletId, n.offerType, n.offerId, n.merchantId, n.isEligible,
    n.validFrom, n.validUntil⟩

/-- For Cashback/Exclusive offers the old `getOfferDetails` finds the same
eligible types and dates as the new one. -/
theorem oldGetOfferDetails_agrees {s : Store} {offerId offerType : String}
    {o : OfferDescriptor}
    (htype : offerType = "Cashback" ∨ offerType = "Exclusive")
    (hoff : getOfferDetails s offerId offerType = some o) :
    ∃ o', oldGetOfferDetails s offerId offerType = some o' ∧
      o'.eligibleCustomerTypes = o.eligibleCustomerTypes ∧
      o'.startDate = o.startDate ∧ o'.endDate = o.endDate := by
  rcases htype with rfl | rfl
  · unfold getOfferDetails at hoff
    simp only [if_pos] at hoff
    obtain ⟨c, hc, hco⟩ := Option.map_eq_some'.mp hoff
    refine ⟨{ eligibleCustomerTypes := c.eligibleCustomerTypes, startDate := c.startDate
              endDate := c.endDate, isActive := true, deletedAt := none },
      ?_, ?_, ?_, ?_⟩
    · unfold oldGetOfferDetails
      simp only [if_pos]
      rw [hc, Option.map_some']
    · rw [← hco]
    · rw [← hco]
    · rw [← hco]
  · unfold getOfferDetails at hoff
    rw [if_neg (by decide), if_pos rfl] at hoff
    obtain ⟨c, hc, hco⟩ := Option.map_eq_some'.mp hoff
    refine ⟨{ eligibleCustomerTypes := c.eligibleCustomerTypes
              startDate := some c.startDate, endDate := some c.endDate
              isActive := true, deletedAt := none },
      ?_, ?_, ?_, ?_⟩
    · unfold oldGetOfferDetails
      rw [if_neg (by decide), if_pos rfl, hc, Option.map_some']
    · rw [← hco]
    · rw [← hco]
    · rw [← hco]

/-- With every merchant outlet active and no `All` sentinel, the old desired
set coincides with the new one. -/
theorem oldDesiredRecords_eq {s : Store} {offerId offerType merchantId : String}
    {o o' : OfferDescriptor} (now : Nat)
    (helig : o'.eligibleCustomerTypes = o.eligibleCustomerTypes)
    (hsd : o'.startDate = o.startDate) (hed : o'.endDate = o.endDate)
    (hallout : ∀ out ∈ s.outlets, out.merchantId = merchantId → out.isActive = true)
    (hnoall : o.eligibleCustomerTypes.contains "All" = false) :
    oldDesiredRecords s offerId offerType merchantId o' now =
      desiredRecords s offerId offerType merchantId o now := by
  unfold oldDesiredRecords desiredRecords matchingCustomerTypes activeOutlets
  rw [helig, hsd, hed, if_neg (by rw [hnoall]; exact Bool.false_ne_true)]
  have houteq : s.outlets.filter (fun out => out.merchantId == merchantId) =
      s.outlets.filter (fun out => out.merchantId == merchantId && out.isActive) := by
    apply List.filter_congr
    intro out hout
    cases hm : (out.merchantId == merchantId) with
    | false => rfl
    | true =>
      rw [Bool.true_and]
      exact (hallout out hout (beq_iff_eq.mp hm)).symm
  rw [houteq]

/-- `createMany` without `skipDuplicates` succeeds on duplicate-free,
non-colliding batches, inserting every row. -/
theorem insertStrict_ok (now : Nat) :
    ∀ (rows : List NewRecord) (t : List EligRecord) (fid : Nat),
      (rows.map newRowKey).Nodup →
      (∀ n ∈ rows, ∀ x ∈ t, ¬rowKey x = newRowKey n) →
      ∃ t', insertStrict t rows fid now = some t' ∧
        (∀ y ∈ t', y ∈ t ∨ ∃ n ∈ rows, ∃ id, y = mkRow n id now) ∧
        (∀ y ∈ t, y ∈ t') ∧
        (∀ n ∈ rows, ∃ id, mkRow n id now ∈ t') := by
  intro rows
  induction rows with
  | nil =>
    intro t fid _ _
    refine ⟨t, rfl, fun y hy => Or.inl hy, fun y hy => hy, fun n hn => ?_⟩
    cases hn
  | cons n rest ih =>
    intro t fid hnd hdisj
    have hany : t.any (fun r => rowKey r == newRowKey n) = false := by
      cases ha : t.any (fun r => rowKey r == newRowKey n) with
      | false => rfl
      | true =>
        obtain ⟨x, hx, hxk⟩ := List.any_eq_true.mp ha
        exact absurd (beq_iff_eq.mp hxk)
          (hdisj n (List.mem_cons_self _ _) x hx)
    have hnd' : (rest.map newRowKey).Nodup := (List.nodup_cons.mp (by simpa using hnd)).2
    have hhead : newRowKey n ∉ rest.map newRowKey :=
      (List.nodup_cons.mp (by simpa using hnd)).1
    have hdisj' : ∀ m ∈ rest, ∀ x ∈ t ++ [mkRow n fid now], ¬rowKey x = newRowKey m := by
      intro m hm x hx hbad
      rcases List.mem_append.mp hx with hx1 | hx1
      · exact hdisj m (List.mem_cons_of_mem _ hm) x hx1 hbad
      · rw [List.mem_singleton.mp hx1] at hbad
        have heq2 : newRowKey n = newRowKey m := hbad
        exact hhead (heq2 ▸ List.mem_map.mpr ⟨m, hm, rfl⟩)
    obtain ⟨t', ht', ha', hb', hc'⟩ := ih (t ++ [mkRow n fid now]) (fid + 1) hnd' hdisj'
    refine ⟨t', ?_, ?_, ?_, ?_⟩
    · unfold insertStrict
      rw [hany]
      exact ht'
    · intro y hy
      rcases ha' y hy with hy1 | ⟨m, hm, id, rfl⟩
      · rcases List.mem_append.mp hy1 with h1 | h1
        · exact Or.inl h1
        · exact Or.inr ⟨n, List.mem_cons_self _ _, fid, List.mem_singleton.mp h1⟩
      · exact Or.inr ⟨m, List.mem_cons_of_mem _ hm, id, rfl⟩
    · intro y hy
      exact hb' y (List.mem_append_left _ hy)
    · intro m hm
      rcases List.mem_cons.mp hm with rfl | hm2
      · exact ⟨fid, hb' _ (List.mem_append_right _ (List.mem_singleton.mpr rfl))⟩
      · exact hc' m hm2

/-- C9 (amended): for a found, active, non-deleted Cashback/Exclusive offer,
with every merchant outlet active, no `All` sentinel, duplicate-free primary
keys and desired keys, colon-free user ids, and stored rows of the offer
carrying the event's merchant with `isEligible`, the delete-and-recreate
service succeeds and both services leave the same set of eligibility facts
(rows up to primary key, `lastUpdated` and `createdAt`). -/
theorem C9_refinement_amended (s : Store) (table : List EligRecord)
    (offerId offerType merchantId : String) (o : OfferDescriptor) (now : Nat)
    (htype : offerType = "Cashback" ∨ offerType = "Exclusive")
    (hoff : getOfferDetails s offerId offerType = some o)
    (hact : o.isActive = true) (hdel : o.deletedAt = none)
    (hout : (activeOutlets s merchantId).isEmpty = false)
    (hids : (table.map (fun r => r.id)).Nodup)
    (hallout : ∀ out ∈ s.outlets, out.merchantId = merchantId → out.isActive = true)
    (hnoall : o.eligibleCustomerTypes.contains "All" = false)
    (hctcol : ∀ ct ∈ s.customerTypes, ':' ∉ ct.userId.data)
    (htabcol : ∀ r ∈ table, ':' ∉ r.userId.data)
    (hrowinv : ∀ r ∈ table, r.offerId = offerId → r.offerType = offerType →
      r.merchantId = merchantId ∧ r.isEligible = true)
    (hdesnd : ((desiredRecords s offerId offerType merchantId o now).map
      newRowKey).Nodup) :
    ∃ oldT, oldComputeEligibility s table offerId offerType merchantId now = some oldT ∧
      ∀ p : FactRow,
        p ∈ (computeEligibility s table offerId offerType merchantId now).map factOf ↔
        p ∈ oldT.map factOf := by
  obtain ⟨o', hold, helig, hsd, hed⟩ := oldGetOfferDetails_agrees htype hoff
  have hdeseq : oldDesiredRecords s offerId offerType merchantId o' now =
      desiredRecords s offerId offerType merchantId o now :=
    oldDesiredRecords_eq now helig hsd hed hallout hnoall
  have hdisj : ∀ n ∈ desiredRecords s offerId offerType merchantId o now,
      ∀ x ∈ table.filter (fun r => !(r.offerId == offerId && r.offerType == offerType)),
      ¬rowKey x = newRowKey n := by
    intro n hn x hx hbad
    have hdn := desired_fields hn
    have hxr := List.mem_filter.mp hx
    have h3 : x.offerType = n.offerType :=
      congrArg (fun q : String × String × String × String => q.2.2.1) hbad
    have h4 : x.offerId = n.offerId :=
      congrArg (fun q : String × String × String × String => q.2.2.2) hbad
    have hmm : (x.offerId == offerId && x.offerType == offerType) = true := by
      rw [h4, hdn.2.1, h3, hdn.1]
      simp
    rw [hmm] at hxr
    simpa using hxr.2
  obtain ⟨oldT, holdT, hOa, hOb, hOc⟩ := insertStrict_ok now
    (desiredRecords s offerId offerType merchantId o now)
    (table.filter (fun r => !(r.offerId == offerId && r.offerType == offerType)))
    (freshIdFor (table.filter (fun r =>
      !(r.offerId == offerId && r.offerType == offerType)))) hdesnd hdisj
  have holdcomp : oldComputeEligibility s table offerId offerType merchantId now =
      some oldT := by
    unfold oldComputeEligibility
    rw [hold]
    dsimp only
    rw [hdeseq]
    exact holdT
  have hDH : DeltaHyps s table offerId offerType merchantId o :=
    ⟨hoff, hact, hdel, hout, hids⟩
  have hF : computeEligibility s table offerId offerType merchantId now =
      diffFinal s table offerId offerType merchantId o now :=
    computeEligibility_eq_diffFinal hDH
  have hdesucol : ∀ n ∈ desiredRecords s offerId offerType merchantId o now,
      ':' ∉ n.userId.data := by
    intro n hn
    obtain ⟨ct, hct, out, houtm, rfl⟩ := mem_desiredRecords.mp hn
    exact hctcol ct (mem_matchingCustomerTypes.mp hct).1
  have hrcolF : ∀ r ∈ diffFinal s table offerId offerType merchantId o now,
      ':' ∉ r.userId.data := by
    intro r hr
    rcases diffFinal_provenance hDH hr with ⟨x, hx, hxu, -⟩ | ⟨n', hn', fid, rfl⟩
    · rw [← hxu]
      exact htabcol x hx
    · exact hdesucol n' hn'
  have hmerF : ∀ r ∈ diffFinal s table offerId offerType merchantId o now,
      r.offerId = offerId → r.offerType = offerType →
      r.merchantId = merchantId ∧ r.isEligible = true := by
    intro r hr h1 h2
    rcases diffFinal_provenance hDH hr with
      ⟨x, hx, hxu, hxo, hxt, hxi, hxm, hxe⟩ | ⟨n', hn', fid, rfl⟩
    · have := hrowinv x hx (hxi.trans h1) (hxt.trans h2)
      exact ⟨hxm ▸ this.1, hxe ▸ this.2⟩
    · have hd' := desired_fields hn'
      exact ⟨by simp [mkRow, hd'.2.2.1], by simp [mkRow, hd'.2.2.2.1]⟩
  have hfacteq : ∀ r ∈ diffFinal s table offerId offerType merchantId o now,
      r.offerId = offerId → r.offerType = offerType →
      ∀ n ∈ desiredRecords s offerId offerType merchantId o now,
      recKey n.userId n.outletId = recKey r.userId r.outletId →
      factOf r = newFactOf n := by
    intro r hr h1 h2 n hn hkey
    obtain ⟨hu, hoeq⟩ := recKey_sep_inj (hdesucol n hn) (hrcolF r hr) hkey
    have hwin := diffFinal_matching_window hDH hr h1 h2 ⟨n, hn, hu, hoeq⟩
    have hmer := hmerF r hr h1 h2
    have hdn := desired_fields hn
    simp only [factOf, newFactOf, FactRow.mk.injEq]
    refine ⟨hu.symm, hoeq.symm, h2.trans hdn.1.symm, h1.trans hdn.2.1.symm,
      hmer.1.trans hdn.2.2.1.symm, hmer.2.trans hdn.2.2.2.1.symm,
      hwin.1.trans hdn.2.2.2.2.1.symm, hwin.2.trans hdn.2.2.2.2.2.1.symm⟩
  refine ⟨oldT, holdcomp, ?_⟩
  intro p
  rw [hF]
  constructor
  · intro hp
    obtain ⟨r, hrF, rfl⟩ := List.mem_map.mp hp
    by_cases hm : r.offerId = offerId ∧ r.offerType = offerType
    · have hk := diffFinal_matching_key hDH hrF hm.1 hm.2
      obtain ⟨n, hn, hkn⟩ := List.mem_map.mp (List.elem_iff.mp hk)
      have hfact := hfacteq r hrF hm.1 hm.2 n hn hkn
      obtain ⟨id, hmk⟩ := hOc n hn
      apply List.mem_map.mpr
      refine ⟨mkRow n id now, hmk, ?_⟩
      rw [hfact]
      rfl
    · have hrT := (diffFinal_nonmatching hDH hm).mp hrF
      apply List.mem_map.mpr
      refine ⟨r, hOb r (List.mem_filter.mpr ⟨hrT, ?_⟩), rfl⟩
      by_cases h1 : r.offerId = offerId
      · by_cases h2 : r.offerType = offerType
        · exact absurd ⟨h1, h2⟩ hm
        · simp [h1, h2]
      · simp [h1]
  · intro hp
    obtain ⟨y, hyT, rfl⟩ := List.mem_map.mp hp
    rcases hOa y hyT with hy1 | ⟨n, hn, id, rfl⟩
    · have hyr := List.mem_filter.mp hy1
      have hym : ¬(y.offerId = offerId ∧ y.offerType = offerType) := by
        rintro ⟨h1, h2⟩
        have hcc : (y.offerId == offerId && y.offerType == offerType) = true := by
          simp [h1, h2]
        rw [hcc] at hyr
        simpa using hyr.2
      exact List.mem_map.mpr ⟨y, (diffFinal_nonmatching hDH hym).mpr hyr.1, rfl⟩
    · have hk : recKey n.userId n.outletId ∈
          diffNewKeys s offerId offerType merchantId o now :=
        List.mem_map.mpr ⟨n, hn, rfl⟩
      obtain ⟨r, hrF, hrid, hrty, hrkey⟩ := diffFinal_covers hDH hk
      have hfact := hfacteq r hrF hrid hrty n hn hrkey.symm
      apply List.mem_map.mpr
      refine ⟨r, hrF, ?_⟩
      rw [hfact]
      rfl

/-- C9 witness: the amended equivalence at a concrete dated Cashback offer. -/
theorem C9_refinement_amended_witness :
    ∃ oldT, oldComputeEligibility cxStore [] "cashback-001" "Cashback" "merchant-001" 0 =
        some oldT ∧
      ∀ p : FactRow,
        p ∈ (computeEligibility cxStore [] "cashback-001" "Cashback" "merchant-001" 0).map
            factOf ↔
        p ∈ oldT.map factOf :=
  C9_refinement_amended cxStore [] "cashback-001" "Cashback" "merchant-001"
    { eligibleCustomerTypes := ["Gold", "Platinum"], startDate := some 100
      endDate := some 999999, isActive := true, deletedAt := none } 0
    (Or.inl rfl) (by decide) rfl rfl (by decide) (by decide)
    (by decide) (by decide) (by decide) (by decide) (by decide) (by decide)

/-! ## C7 — pagination invariant (amended) -/

/-- Insertion keeps the length. -/
theorem length_insertByCreatedAtDesc (r : EligRecord) :
    ∀ l : List EligRecord, (insertByCreatedAtDesc r l).length = l.length + 1 := by
  intro l
  induction l with
  | nil => rfl
  | cons x xs ih =>
    unfold insertByCreatedAtDesc
    by_cases h : x.createdAt ≤ r.createdAt
    · rw [if_pos h]
      rfl
    · rw [if_neg h]
      simp [ih]

/-- Sorting keeps the length. -/
theorem length_sortByCreatedAtDesc :
    ∀ l : List EligRecord, (sortByCreatedAtDesc l).length = l.length := by
  intro l
  induction l with
  | nil => rfl
  | cons x xs ih =>
    unfold sortByCreatedAtDesc
    rw [length_insertByCreatedAtDesc, ih]
    rfl

/-- Filters with incompatible predicates keep at most the original length in
total. -/
theorem length_filter_add_filter_le {α : Type} (p q : α → Bool)
    (h : ∀ a, ¬(p a = true ∧ q a = true)) :
    ∀ l : List α, (l.filter p).length + (l.filter q).length ≤ l.length := by
  intro l
  induction l with
  | nil => simp
  | cons x xs ih =>
    simp only [List.filter_cons]
    cases hp : p x with
    | true =>
      cases hq : q x with
      | true => exact absurd ⟨hp, hq⟩ (h x)
      | false =>
        rw [if_pos rfl, if_neg (by simp)]
        simp only [List.length_cons]
        omega
    | false =>
      cases hq : q x with
      | true =>
        rw [if_neg (by simp), if_pos rfl]
        simp only [List.length_cons]
        omega
      | false =>
        rw [if_neg (by simp), if_neg (by simp)]
        simp only [List.length_cons]
        omega

/-- The per-type payload fetch returns at most one offer per fetched id. -/
theorem length_payload_filter_le {α : Type} (ids : List String)
    (cfg : List α) (idOf : α → String) (act : α → Bool)
    (hnd : (cfg.map idOf).Nodup) :
    (cfg.filter (fun cb => ids.contains (idOf cb) && act cb)).length ≤ ids.length := by
  set l := cfg.filter (fun cb => ids.contains (idOf cb) && act cb) with hl
  have hsubl : l.Sublist cfg := List.filter_sublist cfg
  have hnd2 : (l.map idOf).Nodup := List.Nodup.sublist (hsubl.map idOf) hnd
  have hsub : l.map idOf ⊆ ids := by
    intro a ha
    obtain ⟨cb, hcb, rfl⟩ := List.mem_map.mp ha
    have := (List.mem_filter.mp hcb).2
    rw [Bool.and_eq_true] at this
    exact List.elem_iff.mp this.1
  have := (List.subperm_of_subset hnd2 hsub).length_le
  rw [List.length_map] at this
  exact this

/-- One payload branch of `enrichOffers` yields at most one offer per id. -/
theorem enrich_branch_length_le {α : Type} (ids : List String) (cfg : List α)
    (idOf : α → String) (act : α → Bool) (f : α → Option OfferOut)
    (hnd : (cfg.map idOf).Nodup) :
    (if ids.isEmpty then ([] : List OfferOut)
     else (cfg.filter (fun cb => ids.contains (idOf cb) && act cb)).filterMap f).length ≤
      ids.length := by
  split
  · simp
  · exact le_trans (List.length_filterMap_le _ _)
      (length_payload_filter_le ids cfg idOf act hnd)

/-- Enrichment yields at most one offer per fetched eligibility row. -/
theorem enrichOffers_length_le (s : Store) (rows : List EligRecord) (now : Nat)
    (hcb : (s.cashbacks.map (fun c => c.id)).Nodup)
    (hex : (s.exclusives.map (fun e => e.id)).Nodup) :
    (enrichOffers s rows now).length ≤ rows.length := by
  unfold enrichOffers
  dsimp only
  rw [List.length_append]
  have h3 := length_filter_add_filter_le (fun r : EligRecord => r.offerType == "Cashback")
    (fun r : EligRecord => r.offerType == "Exclusive")
    (fun r => by
      rintro ⟨ha, hb⟩
      rw [beq_iff_eq] at ha hb
      exact absurd (ha.symm.trans hb) (by decide)) rows
  refine le_trans (Nat.add_le_add
    (enrich_branch_length_le _ s.cashbacks (fun c => c.id) (fun c => c.isActive) _ hcb)
    (enrich_branch_length_le _ s.exclusives (fun e => e.id) (fun e => e.isActive) _ hex)) ?_
  rw [List.length_map, List.length_map]
  exact h3

/-- C7 (amended): for positive `page` and `limit` (the resolver's defaults
guarantee both), `hasMore` always equals `page*limit < count` for the true
matching count, and the number of returned offers never exceeds `limit`
(assuming duplicate-free payload-table primary keys); the returned `total`
equals the matching count whenever the requested page is non-empty, but a page
past the end returns the fixed empty response whose `total` is `0` even when
matching records exist (see the counterexample). -/
theorem C7_pagination_amended (s : Store) (table : List EligRecord) (userId : String)
    (outletId offerType : Option String) (limit page now : Nat)
    (hpage : 1 ≤ page) (hlimit : 1 ≤ limit)
    (hcb : (s.cashbacks.map (fun c => c.id)).Nodup)
    (hex : (s.exclusives.map (fun e => e.id)).Nodup) :
    (getOffersMiss s table userId outletId offerType limit page now).1.offers.length ≤
        limit ∧
    (getOffersMiss s table userId outletId offerType limit page now).1.hasMore =
      decide (page * limit < countMatching table userId outletId offerType now) ∧
    (pageRows table userId outletId offerType limit page now ≠ [] →
      (getOffersMiss s table userId outletId offerType limit page now).1.total =
        countMatching table userId outletId offerType now) ∧
    (pageRows table userId outletId offerType limit page now = [] →
      (getOffersMiss s table userId outletId offerType limit page now).1.total = 0) := by
  by_cases hrows : pageRows table userId outletId offerType limit page now = []
  · have hmiss : getOffersMiss s table userId outletId offerType limit page now =
        ({ offers := [], total := 0, hasMore := false, page := page }, 60) := by
      unfold getOffersMiss
      rw [if_pos (List.isEmpty_iff.mpr hrows)]
    have htot : countMatching table userId outletId offerType now ≤ (page - 1) * limit := by
      unfold pageRows at hrows
      rcases List.take_eq_nil_iff.mp hrows with h | h
      · omega
      · have := List.drop_eq_nil_iff.mp h
        rw [length_sortByCreatedAtDesc] at this
        rw [countMatching, List.countP_eq_length_filter]
        exact this
    have hmore : page * limit ≥ countMatching table userId outletId offerType now := by
      have h1 : (page - 1) * limit ≤ page * limit := Nat.mul_le_mul_right _ (by omega)
      omega
    rw [hmiss]
    refine ⟨by simp, ?_, fun h => absurd hrows h, fun _ => rfl⟩
    simp only []
    symm
    simp only [decide_eq_false_iff_not, not_lt]
    exact hmore
  · have hmiss : getOffersMiss s table userId outletId offerType limit page now =
        ({ offers := enrichOffers s
              (pageRows table userId outletId offerType limit page now) now
           total := countMatching table userId outletId offerType now
           hasMore := decide (page * limit <
              countMatching table userId outletId offerType now)
           page := page }, 300) := by
      unfold getOffersMiss
      rw [if_neg]
      intro hbad
      exact hrows (List.isEmpty_iff.mp hbad)
    rw [hmiss]
    refine ⟨?_, rfl, fun _ => rfl, fun h => absurd h hrows⟩
    calc (enrichOffers s (pageRows table userId outletId offerType limit page now)
          now).length ≤
        (pageRows table userId outletId offerType limit page now).length :=
          enrichOffers_length_le s _ now hcb hex
      _ ≤ limit := by
          unfold pageRows
          exact List.length_take_le _ _

/-- C7 witness: the amended pagination facts at a concrete non-empty page. -/
theorem C7_pagination_amended_witness :
    (getOffersMiss undatedStore [sampleRow] "u1" none none 1 1 50).1.offers.length ≤ 1 ∧
    (getOffersMiss undatedStore [sampleRow] "u1" none none 1 1 50).1.hasMore =
      decide (1 * 1 < countMatching [sampleRow] "u1" none none 50) ∧
    (pageRows [sampleRow] "u1" none none 1 1 50 ≠ [] →
      (getOffersMiss undatedStore [sampleRow] "u1" none none 1 1 50).1.total =
        countMatching [sampleRow] "u1" none none 50) ∧
    (pageRows [sampleRow] "u1" none none 1 1 50 = [] →
      (getOffersMiss undatedStore [sampleRow] "u1" none none 1 1 50).1.total = 0) :=
  C7_pagination_amended undatedStore [sampleRow] "u1" none none 1 1 50
    (by decide) (by decide) (by decide) (by decide)

/-- C8 (amended): a zero-row miss caches the fixed empty response for 60
seconds; a non-empty miss caches the enriched response for 300 seconds, where
enrichment covers only `Cashback` and `Exclusive` rows (never `Loyalty`),
joins each offer with the window of the last fetched row bearing its offer id,
and yields at most one offer per fetched row (given duplicate-free payload
primary keys). -/
theorem C8_enrichment_amended (s : Store) (table : List EligRecord) (userId : String)
    (outletId offerType : Option String) (limit page now : Nat)
    (hcb : (s.cashbacks.map (fun c => c.id)).Nodup)
    (hex : (s.exclusives.map (fun e => e.id)).Nodup) :
    (pageRows table userId outletId offerType limit page now = [] →
      getOffersMiss s table userId outletId offerType limit page now =
        ({ offers := [], total := 0, hasMore := false, page := page }, 60)) ∧
    (pageRows table userId outletId offerType limit page now ≠ [] →
      (getOffersMiss s table userId outletId offerType limit page now).2 = 300 ∧
      (getOffersMiss s table userId outletId offerType limit page now).1.offers =
        enrichOffers s (pageRows table userId outletId offerType limit page now) now) ∧
    (∀ (rows : List EligRecord) (of : OfferOut), of ∈ enrichOffers s rows now →
      (of.offerType = "Cashback" ∨ of.offerType = "Exclusive") ∧
      ∃ r, eligibilityLookup rows of.id = some r ∧ r ∈ rows ∧ r.offerId = of.id ∧
        of.validFrom = r.validFrom ∧ of.validUntil = r.validUntil) ∧
    (∀ rows : List EligRecord, (enrichOffers s rows now).length ≤ rows.length) := by
  refine ⟨?_, ?_, ?_, fun rows => enrichOffers_length_le s rows now hcb hex⟩
  · intro hrows
    unfold getOffersMiss
    rw [if_pos (List.isEmpty_iff.mpr hrows)]
  · intro hrows
    have hne : (pageRows table userId outletId offerType limit page now).isEmpty = false := by
      cases hie : (pageRows table userId outletId offerType limit page now).isEmpty with
      | false => rfl
      | true => exact absurd (List.isEmpty_iff.mp hie) hrows
    unfold getOffersMiss
    dsimp only
    rw [hne]
    rw [if_neg (by simp)]
    exact ⟨rfl, rfl⟩
  · intro rows of hof
    unfold enrichOffers at hof
    dsimp only at hof
    rcases List.mem_append.mp hof with hofc | hofe
    · split at hofc
      · cases hofc
      · obtain ⟨cb, hcbm, hfe⟩ := List.mem_filterMap.mp hofc
        cases hlook : eligibilityLookup rows cb.id with
        | none =>
          rw [hlook] at hfe
          cases hfe
        | some e =>
          rw [hlook] at hfe
          dsimp only at hfe
          cases hfe
          have hemem := List.mem_of_find?_eq_some hlook
          have hepred := List.find?_some hlook
          refine ⟨Or.inl rfl, e, hlook, List.mem_reverse.mp hemem,
            beq_iff_eq.mp hepred, rfl, rfl⟩
    · split at hofe
      · cases hofe
      · obtain ⟨ex, hexm, hfe⟩ := List.mem_filterMap.mp hofe
        cases hlook : eligibilityLookup rows ex.id with
        | none =>
          rw [hlook] at hfe
          cases hfe
        | some e =>
          rw [hlook] at hfe
          dsimp only at hfe
          cases hfe
          have hemem := List.mem_of_find?_eq_some hlook
          have hepred := List.find?_some hlook
          refine ⟨Or.inr rfl, e, hlook, List.mem_reverse.mp hemem,
            beq_iff_eq.mp hepred, rfl, rfl⟩

/-- C8 witness: the amended enrichment facts at a concrete one-row miss. -/
theorem C8_enrichment_amended_witness :
    getOffersMiss undatedStore [] "u1" none none 100 1 50 =
      ({ offers := [], total := 0, hasMore := false, page := 1 }, 60) :=
  (C8_enrichment_amended undatedStore [] "u1" none none 100 1 50
    (by decide) (by decide)).1 (by decide)

end FusionResolver
